import Mathlib

/-!
Verification development for the 10-K section extraction engine
(`tenkExtraction.py`).  The Python source is shallowly embedded below:
pure string/regex helpers become Lean functions over `List Char`,
the BeautifulSoup document becomes an explicit tree, dictionaries become
association lists, and Python's stable `list.sort` becomes a stable
insertion sort.  Unicode-dependent primitives (`unicodedata.normalize`,
`str.lower`, the `\w`/`\s`/`\d` regex classes) are modelled on the ASCII
fragment, with NFKD given as a char-wise decomposition table that is the
identity on ASCII; no claim below depends on non-ASCII behaviour.
-/

namespace TenK

/-- Model of Python's regex `\s` class (and `str.isspace`) on the ASCII
fragment plus the non-breaking space U+00A0. -/
def pyIsSpaceB (c : Char) : Bool :=
  c = ' ' || c = '\t' || c = '\n' || c = '\r' ||
  c = Char.ofNat 11 || c = Char.ofNat 12 || c = Char.ofNat 160

/-- Model of Python's regex `\w` class (ASCII fragment): alphanumerics
and the underscore. -/
def isWordCharB (c : Char) : Bool :=
  c.isAlphanum || c = '_'

/-- Model of Python's `str.lower` on a single character (ASCII fragment). -/
def pyLowerC (c : Char) : Char := c.toLower

/-- Char-wise model of `unicodedata.normalize('NFKD', ·)`: identity on
ASCII, with a small table of compatibility decompositions (non-breaking
space to space, the fi/fl ligatures). -/
def nfkdChar (c : Char) : List Char :=
  if c = Char.ofNat 160 then [' ']
  else if c = Char.ofNat 0xFB01 then ['f', 'i']
  else if c = Char.ofNat 0xFB02 then ['f', 'l']
  else [c]

/-- Model of `re.sub(r'\s+', ' ', text)`: collapse every maximal run of
whitespace to a single ordinary space (structural-recursion form: a space
is emitted unless the collapsed tail already starts with one). -/
def collapseWs : List Char → List Char
  | [] => []
  | c :: cs =>
    let r := collapseWs cs
    if pyIsSpaceB c then
      if r.head? = some ' ' then r else ' ' :: r
    else c :: r

/-- Model of Python's `str.strip()`: drop whitespace from both ends. -/
def pyStripList (l : List Char) : List Char :=
  ((l.dropWhile pyIsSpaceB).reverse.dropWhile pyIsSpaceB).reverse

/-- Model of Python's `str.strip()` on `String`. -/
def pyStripStr (s : String) : String :=
  String.mk (pyStripList s.data)

/-- Embedding of `normalize_anchor_text` (tenkExtraction.py, lines 80-85):
NFKD, non-breaking-space replacement, lowercasing, punctuation removal
(`re.sub(r'[^\w\s]', '', text.lower())`), whitespace collapsing, strip. -/
def normalize_anchor_text (text : String) : String :=
  let l0 := text.data.flatMap nfkdChar
  let l1 := l0.map fun c => if c = Char.ofNat 160 then ' ' else c
  let l2 := (l1.map pyLowerC).filter fun c => isWordCharB c || pyIsSpaceB c
  String.mk (pyStripList (collapseWs l2))

/-- Attempt to match the regex `item\s*(\d+)([a-z]?)` at the head of the
list, returning the captured digit run and optional letter.  Greedy
matching is exact here: no later token can consume a character that
`\s*` or `\d+` took. -/
def itemMatchAt : List Char → Option (List Char × List Char)
  | c1 :: c2 :: c3 :: c4 :: rest =>
    if c1 = 'i' ∧ c2 = 't' ∧ c3 = 'e' ∧ c4 = 'm' then
      let afterWs := rest.dropWhile pyIsSpaceB
      let ds := afterWs.takeWhile Char.isDigit
      if ds.isEmpty then none
      else
        some (ds,
          match afterWs.dropWhile Char.isDigit with
          | c :: _ => if 'a' ≤ c ∧ c ≤ 'z' then [c] else []
          | [] => [])
    else none
  | _ => none

/-- Model of `re.search(r'item\s*(\d+)([a-z]?)', ·)`: try every position
from the left, returning the leftmost match's captures. -/
def searchItemAfter : List Char → Option (List Char × List Char)
  | [] => none
  | c :: cs =>
    match itemMatchAt (c :: cs) with
    | some r => some r
    | none => searchItemAfter cs

/-- Embedding of `is_target_item_explicit` (lines 87-100).  The source
also computes a `no_spaces` variant of the text that it never uses; that
dead assignment is omitted. -/
def is_target_item_explicit (text : String) : Bool × String :=
  let normalized := normalize_anchor_text text
  match searchItemAfter normalized.data with
  | some (ds, ls) => (true, "item_" ++ String.mk ds ++ String.mk ls)
  | none => (false, "")

/-- Embedding of the `SECTION_MAPPINGS` table (lines 24-75), in the
source's insertion order (which is the dict's iteration order). -/
def SECTION_MAPPINGS : List (String × List String) :=
  [("item_1",
    ["business", "our business", "the business", "overview", "company overview",
     "general", "general development of business", "description of business"]),
   ("item_1a",
    ["risk factors", "risks", "principal risks", "key risks"]),
   ("item_1b",
    ["unresolved staff comments", "unresolved sec staff comments"]),
   ("item_1c",
    ["cybersecurity", "cyber security", "information security", "security risks",
     "cybersecurity risk management", "cybersecurity governance", "cybersecurity threats"]),
   ("item_2",
    ["properties", "real estate", "facilities"]),
   ("item_3",
    ["legal proceedings", "litigation", "legal matters"]),
   ("item_4",
    ["mine safety disclosures", "mine safety"]),
   ("item_5",
    ["market for registrant", "market for common equity", "stockholder matters"]),
   ("item_6",
    ["selected financial data", "selected consolidated financial data"]),
   ("item_7",
    ["management's discussion and analysis", "md&a", "mda",
     "management discussion and analysis", "financial condition and results",
     "management's discussion", "results of operations"]),
   ("item_7a",
    ["quantitative and qualitative disclosures about market risk",
     "market risk", "quantitative disclosures", "market risk disclosures"]),
   ("item_8",
    ["financial statements", "consolidated financial statements",
     "financial statements and supplementary data"]),
   ("item_9",
    ["changes in and disagreements", "accounting and financial disclosure"]),
   ("item_9a",
    ["controls and procedures", "disclosure controls and procedures"]),
   ("item_9b",
    ["other information"])]

/-- Embedding of `TARGET_SECTIONS` (line 78). -/
def TARGET_SECTIONS : List String :=
  ["item_1", "item_1a", "item_1b", "item_1c", "item_7", "item_7a"]

/-- Model of Python's substring test `needle in hay`. -/
def containsSub (needle : List Char) : List Char → Bool
  | [] => needle.isEmpty
  | c :: cs => needle.isPrefixOf (c :: cs) || containsSub needle cs

/-- Embedding of `is_target_item_semantic` (lines 102-110): first table
key one of whose phrase variants occurs in the normalized label wins. -/
def is_target_item_semantic (text : String) : Bool × String :=
  let normalized := normalize_anchor_text text
  match SECTION_MAPPINGS.findSome? (fun kv =>
      kv.2.findSome? (fun variation =>
        if containsSub variation.data normalized.data then some kv.1 else none)) with
  | some k => (true, k)
  | none => (false, "")

/-- Numeric value of a digit run, as Python's `int` of the captured group
(leading zeros allowed). -/
def digitsToNat (ds : List Char) : Nat :=
  ds.foldl (fun acc c => acc * 10 + (c.toNat - 48)) 0

/-- The prefix parse performed by `re.match(r'item_(\d+)([a-z]?)', ·)`:
`re.match` anchors at the start only, so trailing characters after the
optional letter are ignored. -/
def itemKeyParse (s : String) : Option (List Char × List Char) :=
  match s.data with
  | 'i' :: 't' :: 'e' :: 'm' :: '_' :: rest =>
    let ds := rest.takeWhile Char.isDigit
    if ds.isEmpty then none
    else
      some (ds,
        match rest.dropWhile Char.isDigit with
        | c :: _ => if 'a' ≤ c ∧ c ≤ 'z' then [c] else []
        | [] => [])
  | _ => none

/-- Embedding of `get_item_sort_key` (lines 112-119). -/
def get_item_sort_key (item_name : String) : Nat × String :=
  match itemKeyParse item_name with
  | some (ds, ls) => (digitsToNat ds, String.mk ls)
  | none => (999, "")

/-- Lexicographic strict comparison on char lists by code point, as
Python compares strings. -/
def listLtB : List Char → List Char → Bool
  | [], [] => false
  | [], _ :: _ => true
  | _ :: _, [] => false
  | a :: as, b :: bs => if a = b then listLtB as bs else decide (a < b)

/-- Python's `<` on sort-key tuples `(int, str)`. -/
def keyLtB (a b : Nat × String) : Bool :=
  a.1 < b.1 || (a.1 = b.1 && listLtB a.2.data b.2.data)

/-- Python's `<=` on sort-key tuples, as the negation of reversed `<`. -/
def keyLeB (a b : Nat × String) : Bool :=
  !(keyLtB b a)

/-- Stable insertion of one element into a list already sorted by the
key: the new element (which precedes the list elements in the original
order) goes before any element of equal key. -/
def insStable {α : Type} (key : α → Nat × String) (x : α) : List α → List α
  | [] => [x]
  | y :: ys => if keyLeB (key x) (key y) then x :: y :: ys else y :: insStable key x ys

/-- Model of Python's stable `list.sort(key=...)` as insertion sort. -/
def stableSortBy {α : Type} (key : α → Nat × String) : List α → List α
  | [] => []
  | x :: xs => insStable key x (stableSortBy key xs)

/-- Embedding of `find_next_available_section` (lines 199-213): keep the
anchors whose sort key strictly exceeds the target's, stable-sort them by
key, and return the first one's boundary identifier. -/
def find_next_available_section (all_sections : List (String × String))
    (current_section : String) : Option String :=
  let current_sort_key := get_item_sort_key current_section
  let next_sections := all_sections.filterMap (fun x =>
    let section_sort_key := get_item_sort_key x.1
    if keyLtB current_sort_key section_sort_key then
      some (x.1, x.2, section_sort_key)
    else none)
  match stableSortBy (fun x => x.2.2) next_sections with
  | [] => none
  | x :: _ => some x.2.1

/-- Accumulator pass for `pySplitWs`: `cur` holds the reversed current
word. -/
def pySplitWsAux (cur : List Char) : List Char → List (List Char)
  | [] => if cur.isEmpty then [] else [cur.reverse]
  | c :: cs =>
    if pyIsSpaceB c then
      if cur.isEmpty then pySplitWsAux [] cs
      else cur.reverse :: pySplitWsAux [] cs
    else pySplitWsAux (c :: cur) cs

/-- Model of Python's `str.split()` with no separator: maximal runs of
non-whitespace, empty tokens discarded. -/
def pySplitWs (l : List Char) : List (List Char) :=
  pySplitWsAux [] l

/-- Python's `len(content.split())`: whitespace-delimited word count. -/
def pyWordCount (s : String) : Nat :=
  (pySplitWs s.data).length

/-- Dictionary lookup on an association list (first binding wins, as in a
Python dict with unique keys). -/
def pyLookup (d : List (String × String)) (k : String) : Option String :=
  (d.find? (fun kv => kv.1 == k)).map Prod.snd

/-- Embedding of `should_use_xbrl_fallback` (lines 458-478).  The second
parameter `target_found` is accepted but, exactly as in the source, never
read. -/
def should_use_xbrl_fallback (extracted : List (String × String))
    (target_found : List String) : Bool :=
  if extracted.isEmpty then true
  else
    let found_count := (TARGET_SECTIONS.filter (fun sec =>
      match pyLookup extracted sec with
      | some content => content != ""
      | none => false)).length
    if found_count ≤ TARGET_SECTIONS.length / 2 then true
    else if extracted.any (fun kv => kv.2 != "" && pyWordCount kv.2 > 30000) then true
    else false

/-- Embedding of the decision flow of `main` (lines 652-690) with the
document-dependent collaborators abstracted as inputs: `structural` is
the mapping produced by the structural pass (empty when no TOC targets
were found), `fallback_sections` is what `parse_10k_filing_xbrl` would
return.  `main` first decides replacement with the gate, then, when the
final mapping is non-empty, labels the result by re-running the gate on
that (possibly replaced) mapping. -/
def main_result (structural fallback_sections : List (String × String))
    (target_found : List String) : Option (String × List (String × String)) :=
  let extracted := structural
  let extracted :=
    if should_use_xbrl_fallback extracted target_found then fallback_sections
    else extracted
  if extracted.isEmpty then none
  else
    some ((if should_use_xbrl_fallback extracted target_found then "xbrl_fallback"
           else "toc_anchor"), extracted)

/-- Claim-side count (phrased from the spec's words, for comparison with
the gate): the number of Target Set keys mapped to non-empty content. -/
def foundTargetCount (extracted : List (String × String)) : Nat :=
  (TARGET_SECTIONS.filter (fun sec =>
    match pyLookup extracted sec with
    | some content => content != ""
    | none => false)).length

/-- Claim-side restatement of the Quality Gate trigger (spec section 4.7):
empty mapping, or at most half (three of six) targets non-empty, or some
section over 30,000 words. -/
def qualityGateSpec (extracted : List (String × String)) : Prop :=
  extracted = [] ∨ foundTargetCount extracted ≤ 3 ∨
    ∃ kv ∈ extracted, pyWordCount kv.2 > 30000

/-- First minimum by key: the earliest element of the list whose key is
minimal (the element a stable sort by this key would put first). -/
def firstMinBy {α : Type} (key : α → Nat × String) : List α → Option α
  | [] => none
  | x :: xs =>
    match firstMinBy key xs with
    | none => some x
    | some b => if keyLtB (key b) (key x) then some b else some x

/-- Claim-side (spec section 4.5): the anchors whose key strictly exceeds
the target key in canonical order. -/
def strictlyLaterAnchors (all_sections : List (String × String))
    (cur : String) : List (String × String) :=
  all_sections.filter (fun x =>
    keyLtB (get_item_sort_key cur) (get_item_sort_key x.1))

/-- Claim-side (spec section 4.5): the anchor with the minimal key among
those strictly exceeding the target key, earliest first on ties. -/
def nearestLaterAnchor (all_sections : List (String × String))
    (cur : String) : Option (String × String) :=
  firstMinBy (fun x => get_item_sort_key x.1) (strictlyLaterAnchors all_sections cur)

/-- Claim-side predicate: the string is exactly of the form
`item_<number><optional letter>` (nothing after the optional lowercase
letter). -/
def wellFormedKeyB (s : String) : Bool :=
  match s.data with
  | 'i' :: 't' :: 'e' :: 'm' :: '_' :: rest =>
    let ds := rest.takeWhile Char.isDigit
    !ds.isEmpty &&
      (match rest.dropWhile Char.isDigit with
       | [] => true
       | c :: tail => ('a' ≤ c && c ≤ 'z') && tail.isEmpty)
  | _ => false

/-- A navigation link as consumed by anchor discovery: the `href`
attribute and the link's visible label
(`a.get_text(separator=" ", strip=True)`). -/
structure Link where
  href : String
  label : String

/-- A header-like or block-level element as consumed by the text-scan
fallback: its visible text and its `id`/`name` attributes (`none` when
absent). -/
structure Element where
  text : String
  idAttr : Option String
  nameAttr : Option String

/-- Python truthiness of an optional attribute value: absent (`None`) or
empty is falsy. -/
def attrTruthy : Option String → Bool
  | none => false
  | some s => s != ""

/-- Model of Python's `href.strip("#")`: remove `#` from both ends. -/
def stripHash (s : String) : String :=
  String.mk (((s.data.dropWhile (· = '#')).reverse.dropWhile (· = '#')).reverse)

/-- One iteration of the `extract_sections_by_text_search` loop (lines
130-162), carrying the `seen` set and the accumulated `found_sections`.
The synthesized id uses the current length of `found_sections` exactly
as the source does; the source's in-place attachment of that id to the
element mutates the document, not this scan, and is dropped here. -/
def textSearchStep (st : List String × List (String × String)) (e : Element) :
    List String × List (String × String) :=
  let (seen, found) := st
  if e.text = "" ∨ e.text.length > 200 then st
  else
    let expl := is_target_item_explicit e.text
    if expl.1 && !(seen.contains expl.2) then
      let element_id := "section_" ++ expl.2 ++ "_" ++ toString found.length
      let target_id :=
        if !(attrTruthy e.idAttr) && !(attrTruthy e.nameAttr) then element_id
        else if attrTruthy e.idAttr then e.idAttr.getD "" else e.nameAttr.getD ""
      (expl.2 :: seen, found ++ [(expl.2, target_id)])
    else
      let sem := is_target_item_semantic e.text
      if sem.1 && !(seen.contains sem.2) then
        let element_id := "section_" ++ sem.2 ++ "_" ++ toString found.length
        let target_id :=
          if !(attrTruthy e.idAttr) && !(attrTruthy e.nameAttr) then element_id
          else if attrTruthy e.idAttr then e.idAttr.getD "" else e.nameAttr.getD ""
        (sem.2 :: seen, found ++ [(sem.2, target_id)])
      else st

/-- Embedding of `extract_sections_by_text_search` (lines 121-164). -/
def extract_sections_by_text_search (elements : List Element) :
    List (String × String) :=
  (elements.foldl textSearchStep ([], [])).2

/-- One iteration of the `extract_all_section_anchors` link loop (lines
172-190): internal-fragment links with non-empty labels are classified
explicitly first, semantically second, recording the first hit per
unseen key. -/
def anchorScanStep (st : List String × List (String × String)) (a : Link) :
    List String × List (String × String) :=
  let (seen, out) := st
  let href := pyStripStr a.href
  if !(href.startsWith "#") then st
  else if a.label = "" then st
  else
    let expl := is_target_item_explicit a.label
    if expl.1 && !(seen.contains expl.2) then
      (expl.2 :: seen, out ++ [(expl.2, stripHash href)])
    else
      let sem := is_target_item_semantic a.label
      if sem.1 && !(seen.contains sem.2) then
        (sem.2 :: seen, out ++ [(sem.2, stripHash href)])
      else st

/-- Embedding of `extract_all_section_anchors` (lines 166-197): scan the
navigation links; when no anchor was found, fall back to the text scan;
finally sort the catalog by canonical key order. -/
def extract_all_section_anchors (links : List Link) (elements : List Element) :
    List (String × String) :=
  let all_sections := (links.foldl anchorScanStep ([], [])).2
  let all_sections :=
    if all_sections.isEmpty then extract_sections_by_text_search elements
    else all_sections
  stableSortBy (fun x => get_item_sort_key x.1) all_sections

/-- No two adjacent whitespace characters. -/
def noAdjB : List Char → Bool
  | c :: d :: rest => (!(pyIsSpaceB c && pyIsSpaceB d)) && noAdjB (d :: rest)
  | _ => true

/-- Model of Python's `str.lower` on a whole string. -/
def lowerStr (s : String) : String :=
  String.mk (s.data.map pyLowerC)

/-- The attributes and direct text of one document node, as consumed by
the Content Extractor. -/
structure NodeData where
  tag : String
  idAttr : Option String
  nameAttr : Option String
  ownText : String

/-- A parsed document, modelled flat: the nodes in document (preorder)
order, each with its tree path (child indices from the root).  Sibling
and parent relations are recovered from the paths; node identity (the
`current != next_el` checks of the source) is path equality. -/
abbrev Doc : Type := List (List Nat × NodeData)

/-- Join a list of strings with a separator, as `sep.join(...)`. -/
def joinSep (sep : String) : List String → String
  | [] => ""
  | [x] => x
  | x :: y :: xs => x ++ sep ++ joinSep sep (y :: xs)

/-- Path prefix test (a node's subtree is the nodes its path prefixes). -/
def isPathPrefix : List Nat → List Nat → Bool
  | [], _ => true
  | _ :: _, [] => false
  | a :: as, b :: bs => a = b && isPathPrefix as bs

/-- Model of BeautifulSoup's `get_text(separator=sep, strip=True)` for
the node at path `p`: the stripped, non-empty strings of its subtree in
document order, joined by the separator. -/
def get_text (doc : Doc) (p : List Nat) (sep : String) : String :=
  joinSep sep (((doc.filter (fun q => isPathPrefix p q.1)).map
    (fun q => pyStripStr q.2.ownText)).filter (fun t => t != ""))

/-- First node of the document satisfying a predicate (`soup.find`). -/
def findNode (doc : Doc) (pred : NodeData → Bool) : Option (List Nat × NodeData) :=
  doc.find? (fun q => pred q.2)

/-- Resolution of the start boundary (lines 284-310): id exact, id
case-insensitive, `<a name>` exact, `<a name>` case-insensitive, any
name exact, any name case-insensitive. -/
def resolveTargetEl (doc : Doc) (target_id : String) : Option (List Nat × NodeData) :=
  (findNode doc (fun n => n.idAttr == some target_id)).orElse (fun _ =>
  (findNode doc (fun n => n.idAttr.isSome
      && (lowerStr (n.idAttr.getD "") == lowerStr target_id))).orElse (fun _ =>
  (findNode doc (fun n => n.tag == "a" && n.nameAttr == some target_id)).orElse (fun _ =>
  (findNode doc (fun n => n.tag == "a" && n.nameAttr.isSome
      && (lowerStr (n.nameAttr.getD "") == lowerStr target_id))).orElse (fun _ =>
  (findNode doc (fun n => n.nameAttr == some target_id)).orElse (fun _ =>
  findNode doc (fun n => n.nameAttr.isSome
      && (lowerStr (n.nameAttr.getD "") == lowerStr target_id)))))))

/-- Resolution of the stop boundary (lines 317-332): id exact,
`<a name>` exact, any name exact, then the case-insensitive id and name
scans. -/
def resolveNextEl (doc : Doc) (next_target_id : String) : Option (List Nat × NodeData) :=
  (findNode doc (fun n => n.idAttr == some next_target_id)).orElse (fun _ =>
  (findNode doc (fun n => n.tag == "a" && n.nameAttr == some next_target_id)).orElse (fun _ =>
  (findNode doc (fun n => n.nameAttr == some next_target_id)).orElse (fun _ =>
  (findNode doc (fun n => n.idAttr.isSome
      && (lowerStr (n.idAttr.getD "") == lowerStr next_target_id))).orElse (fun _ =>
  findNode doc (fun n => n.nameAttr.isSome
      && (lowerStr (n.nameAttr.getD "") == lowerStr next_target_id))))))

/-- Model of `find_next_sibling`: the first node (in document order)
sharing the parent path with a strictly larger final index.  For a
top-level node's parent (the soup object itself) there is no sibling. -/
def nextSiblingEntry (doc : Doc) (p : List Nat) : Option (List Nat × NodeData) :=
  match p.getLast? with
  | none => none
  | some i =>
    doc.find? (fun q => q.1.length == p.length && q.1.dropLast == p.dropLast &&
      (match q.1.getLast? with
       | some j => decide (i < j)
       | none => false))

/-- The structural sibling walk (lines 349-354 and the fallback walks):
follow `find_next_sibling` from `p`, stop at the stop node, collect each
sibling's visible text when longer than 10 characters.  Fuel bounds the
walk by the document size. -/
def siblingWalk (doc : Doc) : Nat → Option (List Nat) → Option (List Nat) → List String
  | 0, _, _ => []
  | _, none, _ => []
  | fuel + 1, some p, stopPath =>
    if some p == stopPath then []
    else
      let t := get_text doc p " "
      let rest := siblingWalk doc fuel ((nextSiblingEntry doc p).map Prod.fst) stopPath
      if t != "" && t.length > 10 then t :: rest else rest

/-- The text-scan-regime walk (lines 258-279): additionally stops early
when a sibling under the 200-character ceiling itself classifies as a
section header (explicitly or semantically) and is not the start node.
The source's final parent-climb branch is dead code (`hasattr(None,
'parent')` is false) and is omitted. -/
def textBasedWalk (doc : Doc) (targetPath : List Nat) :
    Nat → Option (List Nat) → Option (List Nat) → List String
  | 0, _, _ => []
  | _, none, _ => []
  | fuel + 1, some p, stopPath =>
    if some p == stopPath then []
    else
      let t := get_text doc p " "
      if t != "" && t.length < 200
          && ((is_target_item_explicit t).1 || (is_target_item_semantic t).1)
          && !(p == targetPath) then []
      else
        let rest := textBasedWalk doc targetPath fuel
          ((nextSiblingEntry doc p).map Prod.fst) stopPath
        if t != "" && t.length > 10 then t :: rest else rest

/-- Embedding of `find_section_content_text_based` (lines 249-281). -/
def find_section_content_text_based (doc : Doc) (targetPath : List Nat)
    (nextPath : Option (List Nat)) : String :=
  let start :=
    match nextSiblingEntry doc targetPath with
    | some e => some e.1
    | none => (nextSiblingEntry doc targetPath.dropLast).map Prod.fst
  pyStripStr (joinSep "\n\n" (textBasedWalk doc targetPath (doc.length + 1) start nextPath))

/-- Embedding of `find_section_content_advanced` (lines 283-382).  The
`target_el.parent` guard of the last fallback is always truthy in the
source (a found node's parent is at worst the soup object), so the
fallback is always attempted; walks from the soup level yield nothing. -/
def find_section_content_advanced (doc : Doc) (target_id : String)
    (next_target_id : Option String) : String :=
  match resolveTargetEl doc target_id with
  | none => ""
  | some te =>
    let next_el :=
      match next_target_id with
      | some nid => resolveNextEl doc nid
      | none => none
    if target_id.startsWith "section_" then
      find_section_content_text_based doc te.1 (next_el.map Prod.fst)
    else
      let start0 :=
        if te.2.tag == "a" && attrTruthy te.2.nameAttr then
          (if get_text doc te.1 "" = "" then (nextSiblingEntry doc te.1).map Prod.fst
           else some te.1)
        else (nextSiblingEntry doc te.1).map Prod.fst
      let collected := siblingWalk doc (doc.length + 1) start0 (next_el.map Prod.fst)
      let collected :=
        if collected.isEmpty && te.2.tag == "a" then
          siblingWalk doc (doc.length + 1)
            ((nextSiblingEntry doc te.1.dropLast).map Prod.fst) (next_el.map Prod.fst)
        else collected
      let collected :=
        if collected.isEmpty && !(te.2.tag == "a") then
          (let t := get_text doc te.1 " "
           if t != "" && t.length > 50 then [t] else [])
        else collected
      let collected :=
        if collected.isEmpty then
          siblingWalk doc (doc.length + 1)
            ((nextSiblingEntry doc te.1.dropLast).map Prod.fst) (next_el.map Prod.fst)
        else collected
      pyStripStr (joinSep "\n\n" collected)

/-- Tokens of a small regex engine covering exactly the constructs used
by the fallback parser's patterns: literals, optional literal/class,
single-char class, class star/plus (greedy with backtracking over the
run length), word boundary, negative lookahead (as a primitive check on
text and position), and the `^`/`$` anchors without MULTILINE. -/
inductive Tok where
  | lit : Char → Tok
  | litOpt : Char → Tok
  | cls : (Char → Bool) → Tok
  | clsOpt : (Char → Bool) → Tok
  | clsStar : (Char → Bool) → Tok
  | clsPlus : (Char → Bool) → Tok
  | wordB : Tok
  | negAhead : (List Char → Nat → Bool) → Tok
  | bos : Tok
  | eos : Tok

/-- Python's `\b`: a word character on exactly one side of the position. -/
def atWordBoundary (text : List Char) (pos : Nat) : Bool :=
  let prev := if pos = 0 then false else
    match text.get? (pos - 1) with
    | some c => isWordCharB c
    | none => false
  let curr :=
    match text.get? pos with
    | some c => isWordCharB c
    | none => false
  prev != curr

/-- Python's `$` without MULTILINE: the end of the text, or just before
a final newline. -/
def atEos (text : List Char) (pos : Nat) : Bool :=
  pos == text.length ||
  (pos + 1 == text.length &&
    (match text.get? pos with
     | some c => c = '\n'
     | none => false))

/-- Match a token list at a position, returning the end position of the
overall match.  Greedy constructs try the longest consumption first and
backtrack, reproducing Python's leftmost-greedy semantics for the
patterns embedded here. -/
def matchToks (text : List Char) : List Tok → Nat → Option Nat
  | [], pos => some pos
  | t :: ts, pos =>
    match t with
    | .lit c =>
      (match text.get? pos with
       | some d => if d = c then matchToks text ts (pos + 1) else none
       | none => none)
    | .litOpt c =>
      (match text.get? pos with
       | some d =>
         if d = c then
           (match matchToks text ts (pos + 1) with
            | some e => some e
            | none => matchToks text ts pos)
         else matchToks text ts pos
       | none => matchToks text ts pos)
    | .cls p =>
      (match text.get? pos with
       | some d => if p d then matchToks text ts (pos + 1) else none
       | none => none)
    | .clsOpt p =>
      (match text.get? pos with
       | some d =>
         if p d then
           (match matchToks text ts (pos + 1) with
            | some e => some e
            | none => matchToks text ts pos)
         else matchToks text ts pos
       | none => matchToks text ts pos)
    | .clsStar p =>
      (List.range (((text.drop pos).takeWhile p).length + 1)).reverse.findSome?
        (fun n => matchToks text ts (pos + n))
    | .clsPlus p =>
      ((List.range (((text.drop pos).takeWhile p).length)).reverse.map (· + 1)).findSome?
        (fun n => matchToks text ts (pos + n))
    | .wordB => if atWordBoundary text pos then matchToks text ts pos else none
    | .negAhead chk => if chk text pos then none else matchToks text ts pos
    | .bos => if pos == 0 then matchToks text ts pos else none
    | .eos => if atEos text pos then matchToks text ts pos else none

/-- Model of `re.search` from a start offset: the leftmost position with
a match, with its end offset. -/
def reSearchFrom (text : List Char) (toks : List Tok) (start : Nat) : Option (Nat × Nat) :=
  (List.range (text.length + 1)).findSome? (fun pos =>
    if pos < start then none
    else (matchToks text toks pos).map (fun e => (pos, e)))

/-- Model of `re.finditer`: successive non-overlapping matches, resuming
at each match's end (advancing one position on an empty match). -/
def reFindIterAux (text : List Char) (toks : List Tok) : Nat → Nat → List (Nat × Nat)
  | 0, _ => []
  | fuel + 1, start =>
    match reSearchFrom text toks start with
    | none => []
    | some (s, e) =>
      (s, e) :: reFindIterAux text toks fuel (if s < e then e else s + 1)

def reFindIter (text : List Char) (toks : List Tok) : List (Nat × Nat) :=
  reFindIterAux text toks (text.length + 1) 0

/-- Literal-word token run. -/
def litStr (s : String) : List Tok := s.data.map Tok.lit
def spStar : Tok := Tok.clsStar pyIsSpaceB
def digPlus : Tok := Tok.clsPlus Char.isDigit
def abcOpt : Tok := Tok.clsOpt (fun c => 'a' ≤ c && c ≤ 'c')

/-- The check performed by the lookaheads `(?!\s*[a-c])` and `(?!\s*a)`:
after skipping whitespace, is the next character in the given range?
(The classes contain no whitespace, so skipping all of it is exact.) -/
def aheadClassAfterSpaces (lo hi : Char) : List Char → Nat → Bool := fun text pos =>
  match (text.drop pos).dropWhile pyIsSpaceB with
  | c :: _ => lo ≤ c && c ≤ hi
  | [] => false

/-- Tokenizations of the `XBRLSectionParser.section_mapping` patterns
(lines 487-544), one definition per regex, matched against lowercased
text (`re.IGNORECASE`). -/
def pat_item_1_1 : List Tok :=
  litStr "item" ++ [spStar, Tok.lit '1', Tok.wordB, Tok.negAhead (aheadClassAfterSpaces 'a' 'c')]
def pat_item_1_2 : List Tok := litStr "business" ++ [spStar, Tok.eos]
def pat_item_1_3 : List Tok :=
  litStr "item" ++ [spStar, Tok.lit '1', spStar, Tok.lit '.', spStar] ++ litStr "business"

def pat_item_1a_1 : List Tok := litStr "item" ++ [spStar, Tok.lit '1', Tok.lit 'a', Tok.wordB]
def pat_item_1a_2 : List Tok := litStr "risk" ++ [spStar] ++ litStr "factors"
def pat_item_1a_3 : List Tok :=
  litStr "item" ++ [spStar, Tok.lit '1', spStar, Tok.lit 'a', spStar, Tok.lit '.', spStar] ++ litStr "risk"

def pat_item_1b_1 : List Tok := litStr "item" ++ [spStar, Tok.lit '1', Tok.lit 'b', Tok.wordB]
def pat_item_1b_2 : List Tok :=
  litStr "unresolved" ++ [spStar] ++ litStr "staff" ++ [spStar] ++ litStr "comments"
def pat_item_1b_3 : List Tok :=
  litStr "item" ++ [spStar, Tok.lit '1', spStar, Tok.lit 'b', spStar, Tok.lit '.', spStar] ++ litStr "unresolved"

def pat_item_1c_1 : List Tok := litStr "item" ++ [spStar, Tok.lit '1', Tok.lit 'c', Tok.wordB]
def pat_item_1c_2 : List Tok := litStr "cybersecurity"
def pat_item_1c_3 : List Tok :=
  litStr "item" ++ [spStar, Tok.lit '1', spStar, Tok.lit 'c', spStar, Tok.lit '.', spStar] ++ litStr "cybersecurity"

def pat_item_7_1 : List Tok :=
  litStr "item" ++ [spStar, Tok.lit '7', Tok.wordB, Tok.negAhead (aheadClassAfterSpaces 'a' 'a')]
def pat_item_7_2 : List Tok :=
  litStr "management" ++ [Tok.litOpt (Char.ofNat 39)] ++ litStr "s" ++ [spStar] ++
  litStr "discussion" ++ [spStar] ++ litStr "and" ++ [spStar] ++ litStr "analysis"
def pat_item_7_3 : List Tok := litStr "md&a"
def pat_item_7_4 : List Tok :=
  litStr "item" ++ [spStar, Tok.lit '7', spStar, Tok.lit '.', spStar] ++ litStr "management"

def pat_item_7a_1 : List Tok := litStr "item" ++ [spStar, Tok.lit '7', Tok.lit 'a', Tok.wordB]
def pat_item_7a_2 : List Tok :=
  litStr "quantitative" ++ [spStar] ++ litStr "and" ++ [spStar] ++ litStr "qualitative" ++ [spStar] ++
  litStr "disclosures"
def pat_item_7a_3 : List Tok := litStr "market" ++ [spStar] ++ litStr "risk"
def pat_item_7a_4 : List Tok :=
  litStr "item" ++ [spStar, Tok.lit '7', spStar, Tok.lit 'a', spStar, Tok.lit '.', spStar] ++ litStr "quantitative"

/-- The per-section ordered pattern lists of `section_mapping`, in the
source dict's insertion order. -/
def sectionPatterns : List (String × List (List Tok)) :=
  [("item_1", [pat_item_1_1, pat_item_1_2, pat_item_1_3]),
   ("item_1a", [pat_item_1a_1, pat_item_1a_2, pat_item_1a_3]),
   ("item_1b", [pat_item_1b_1, pat_item_1b_2, pat_item_1b_3]),
   ("item_1c", [pat_item_1c_1, pat_item_1c_2, pat_item_1c_3]),
   ("item_7", [pat_item_7_1, pat_item_7_2, pat_item_7_3, pat_item_7_4]),
   ("item_7a", [pat_item_7a_1, pat_item_7a_2, pat_item_7a_3, pat_item_7a_4])]

/-- The three header-shape indicator regexes of `_is_section_header`
(lines 588-597). -/
def headerIndicators : List (List Tok) :=
  [litStr "item" ++ [spStar, digPlus, abcOpt, spStar, Tok.lit '.'],
   [Tok.bos, spStar] ++ litStr "item" ++ [spStar, digPlus, abcOpt, spStar],
   litStr "part" ++ [spStar, Tok.clsPlus (fun c => c = 'i' || c = 'v'), spStar] ++
     litStr "item" ++ [spStar, digPlus, abcOpt]]

/-- Embedding of `XBRLSectionParser._is_section_header`; the second
parameter is accepted and ignored exactly as in the source. -/
def is_section_header (context : List Char) (match_text : List Char) : Bool :=
  headerIndicators.any (fun ind => (reSearchFrom (context.map pyLowerC) ind 0).isSome)

/-- The inner match loop of `find_section_boundaries` (lines 560-568)
for one pattern: the first match whose symmetric 100-character context
window passes the header check. -/
def firstAcceptedStart (all_text : List Char) (pat : List Tok) : Option Nat :=
  let lc := all_text.map pyLowerC
  (reFindIter lc pat).findSome? (fun m =>
    let context_start := m.1 - 100
    let context_end := min all_text.length (m.2 + 100)
    let context := (all_text.drop context_start).take (context_end - context_start)
    if is_section_header context ((all_text.drop m.1).take (m.2 - m.1)) then some m.1
    else none)

/-- The pattern loop of `find_section_boundaries` (lines 558-570),
including the Python truthiness test `if start_pos:` — a recorded start
offset of 0 is treated exactly like no match, so the loop continues and
a later pattern may overwrite it. -/
def findStartLoop (all_text : List Char) : List (List Tok) → Option Nat → Option Nat
  | [], acc => acc
  | pat :: pats, acc =>
    let acc2 :=
      match firstAcceptedStart all_text pat with
      | some s => some s
      | none => acc
    let truthy :=
      match acc2 with
      | some n => n != 0
      | none => false
    if truthy then acc2 else findStartLoop all_text pats acc2

/-- Embedding of `XBRLSectionParser.find_section_boundaries` (lines
552-586): per-section accepted start offsets (subject to the truthiness
test, also on the final `if start_pos:` record guard), then global end
resolution by sorting the (start, section) pairs and giving each section
the next start (the last runs to the text length).  The result lists the
dict's content in sorted-start order. -/
def find_section_boundaries (all_text : List Char) : List (String × (Nat × Nat)) :=
  let phase1 := sectionPatterns.filterMap (fun sp =>
    match findStartLoop all_text sp.2 none with
    | some s => if s != 0 then some (sp.1, s) else none
    | none => none)
  let positions := stableSortBy (fun pr => pr) (phase1.map (fun x => (x.2, x.1)))
  positions.mapIdx (fun i pr =>
    (pr.2, (pr.1,
      if i + 1 < positions.length then
        match positions.get? (i + 1) with
        | some nxt => nxt.1
        | none => all_text.length
      else all_text.length)))

/-! Order lemmas for the Python tuple comparison on sort keys. -/

theorem listLtB_irrefl : ∀ l : List Char, listLtB l l = false
  | [] => rfl
  | a :: as => by simp [listLtB, listLtB_irrefl as]

theorem listLtB_asymm : ∀ a b : List Char, listLtB a b = true → listLtB b a = false
  | [], [], h => by simp [listLtB] at h
  | [], _ :: _, _ => rfl
  | _ :: _, [], h => by simp [listLtB] at h
  | a :: as, b :: bs, h => by
    by_cases hab : a = b
    · subst hab
      simp only [listLtB, if_pos rfl] at h ⊢
      exact listLtB_asymm as bs h
    · simp only [listLtB, if_neg hab, if_neg (Ne.symm hab), decide_eq_true_eq] at h
      simp only [listLtB, if_neg (Ne.symm hab), decide_eq_false_iff_not]
      exact lt_asymm h

theorem listLtB_trans : ∀ a b c : List Char,
    listLtB a b = true → listLtB b c = true → listLtB a c = true
  | [], [], _, h1, _ => by simp [listLtB] at h1
  | _, _ :: _, [], _, h2 => by simp [listLtB] at h2
  | [], _ :: _, _ :: _, _, _ => rfl
  | _ :: _, [], _, h1, _ => by simp [listLtB] at h1
  | a :: as, b :: bs, c :: cs, h1, h2 => by
    by_cases hab : a = b <;> by_cases hbc : b = c
    · subst hab; subst hbc
      simp only [listLtB, if_pos rfl] at h1 h2 ⊢
      exact listLtB_trans as bs cs h1 h2
    · subst hab
      simp only [listLtB, if_neg hbc] at h2 ⊢
      exact h2
    · subst hbc
      simp only [listLtB, if_neg hab] at h1 ⊢
      exact h1
    · simp only [listLtB, if_neg hab, if_neg hbc, decide_eq_true_eq] at h1 h2
      have hac : a < c := lt_trans h1 h2
      simp [listLtB, if_neg (ne_of_lt hac), hac]

theorem listLtB_eq_of_not : ∀ a b : List Char,
    listLtB a b = false → listLtB b a = false → a = b
  | [], [], _, _ => rfl
  | [], _ :: _, h1, _ => by simp [listLtB] at h1
  | _ :: _, [], _, h2 => by simp [listLtB] at h2
  | a :: as, b :: bs, h1, h2 => by
    by_cases hab : a = b
    · subst hab
      simp only [listLtB, if_pos rfl] at h1 h2
      exact congrArg (a :: ·) (listLtB_eq_of_not as bs h1 h2)
    · rcases lt_or_gt_of_ne hab with hlt | hgt
      · simp [listLtB, if_neg hab, decide_eq_true_eq, hlt] at h1
      · simp [listLtB, if_neg (Ne.symm hab), decide_eq_true_eq, hgt] at h2

theorem keyLtB_irrefl (k : Nat × String) : keyLtB k k = false := by
  simp [keyLtB, listLtB_irrefl]

theorem keyLtB_asymm {k1 k2 : Nat × String} (h : keyLtB k1 k2 = true) :
    keyLtB k2 k1 = false := by
  simp only [keyLtB, Bool.or_eq_true, Bool.and_eq_true, decide_eq_true_eq] at h
  simp only [keyLtB, Bool.or_eq_false_iff, Bool.and_eq_false_iff, decide_eq_false_iff_not]
  rcases h with h | ⟨he, hl⟩
  · exact ⟨Nat.not_lt.mpr (Nat.le_of_lt h), Or.inl fun he => absurd (he ▸ h) (lt_irrefl _)⟩
  · exact ⟨Nat.not_lt.mpr (Nat.le_of_eq he), Or.inr (listLtB_asymm _ _ hl)⟩

theorem keyLtB_trans {k1 k2 k3 : Nat × String} (h1 : keyLtB k1 k2 = true)
    (h2 : keyLtB k2 k3 = true) : keyLtB k1 k3 = true := by
  simp only [keyLtB, Bool.or_eq_true, Bool.and_eq_true, decide_eq_true_eq] at h1 h2 ⊢
  rcases h1 with h1 | ⟨he1, hl1⟩ <;> rcases h2 with h2 | ⟨he2, hl2⟩
  · exact Or.inl (lt_trans h1 h2)
  · exact Or.inl (he2 ▸ h1)
  · exact Or.inl (he1 ▸ h2)
  · exact Or.inr ⟨he1.trans he2, listLtB_trans _ _ _ hl1 hl2⟩

theorem keyLtB_eq_of_not {k1 k2 : Nat × String} (h1 : keyLtB k1 k2 = false)
    (h2 : keyLtB k2 k1 = false) : k1 = k2 := by
  simp only [keyLtB, Bool.or_eq_false_iff, Bool.and_eq_false_iff,
    decide_eq_false_iff_not] at h1 h2
  obtain ⟨hn1, hr1⟩ := h1
  obtain ⟨hn2, hr2⟩ := h2
  have hn : k1.1 = k2.1 := Nat.le_antisymm (Nat.not_lt.mp hn2) (Nat.not_lt.mp hn1)
  have hs : k1.2 = k2.2 := by
    rcases hr1 with he | hl1
    · exact absurd hn he
    · rcases hr2 with he | hl2
      · exact absurd hn.symm he
      · exact String.ext (listLtB_eq_of_not _ _ hl1 hl2)
  exact Prod.ext hn hs

/-! Lemmas about the stable sort and the first-minimum selector. -/

theorem insStable_perm {α : Type} (key : α → Nat × String) (x : α) :
    ∀ l : List α, (insStable key x l).Perm (x :: l)
  | [] => List.Perm.refl _
  | y :: ys => by
    unfold insStable
    by_cases h : keyLeB (key x) (key y) = true
    · simp [h]
    · simp only [Bool.not_eq_true] at h
      simp only [h, Bool.false_eq_true, if_false]
      exact ((insStable_perm key x ys).cons y).trans (List.Perm.swap x y ys)

theorem stableSortBy_perm {α : Type} (key : α → Nat × String) :
    ∀ l : List α, (stableSortBy key l).Perm l
  | [] => List.Perm.refl _
  | x :: xs =>
    (insStable_perm key x (stableSortBy key xs)).trans
      ((stableSortBy_perm key xs).cons x)

theorem head?_stableSortBy {α : Type} (key : α → Nat × String) :
    ∀ l : List α, (stableSortBy key l).head? = firstMinBy key l
  | [] => rfl
  | x :: xs => by
    unfold stableSortBy firstMinBy
    rw [← head?_stableSortBy key xs]
    cases hsort : stableSortBy key xs with
    | nil => rfl
    | cons y ys =>
      unfold insStable
      by_cases h : keyLtB (key y) (key x) = true
      · simp [keyLeB, h]
      · simp only [Bool.not_eq_true] at h
        simp [keyLeB, h]

theorem firstMinBy_eq_none {α : Type} (key : α → Nat × String) :
    ∀ l : List α, firstMinBy key l = none ↔ l = []
  | [] => by simp [firstMinBy]
  | x :: xs => by
    unfold firstMinBy
    cases firstMinBy key xs with
    | none => simp
    | some b => by_cases h : keyLtB (key b) (key x) = true <;> simp [h]

theorem firstMinBy_mem {α : Type} (key : α → Nat × String) :
    ∀ (l : List α) (b : α), firstMinBy key l = some b → b ∈ l
  | [], _, h => by simp [firstMinBy] at h
  | x :: xs, b, h => by
    unfold firstMinBy at h
    cases hxs : firstMinBy key xs with
    | none =>
      rw [hxs] at h
      simp only [Option.some.injEq] at h
      exact h ▸ List.mem_cons_self x xs
    | some c =>
      rw [hxs] at h
      dsimp only at h
      by_cases hc : keyLtB (key c) (key x) = true
      · rw [if_pos hc] at h
        simp only [Option.some.injEq] at h
        exact List.mem_cons_of_mem x (h ▸ firstMinBy_mem key xs c hxs)
      · rw [if_neg hc] at h
        simp only [Option.some.injEq] at h
        exact h ▸ List.mem_cons_self x xs

theorem firstMinBy_min {α : Type} (key : α → Nat × String) :
    ∀ (l : List α) (b : α), firstMinBy key l = some b →
      ∀ x ∈ l, keyLtB (key x) (key b) = false
  | [], _, h => by simp [firstMinBy] at h
  | x :: xs, b, h => by
    intro y hy
    unfold firstMinBy at h
    cases hxs : firstMinBy key xs with
    | none =>
      rw [hxs] at h
      simp only [Option.some.injEq] at h
      subst h
      have hxe : xs = [] := (firstMinBy_eq_none key xs).mp hxs
      subst hxe
      rcases List.mem_singleton.mp hy with rfl
      exact keyLtB_irrefl _
    | some c =>
      rw [hxs] at h
      dsimp only at h
      by_cases hc : keyLtB (key c) (key x) = true
      · rw [if_pos hc] at h
        simp only [Option.some.injEq] at h
        subst h
        rcases List.mem_cons.mp hy with rfl | hmem
        · exact keyLtB_asymm hc
        · exact firstMinBy_min key xs c hxs y hmem
      · rw [if_neg hc] at h
        simp only [Option.some.injEq] at h
        subst h
        simp only [Bool.not_eq_true] at hc
        rcases List.mem_cons.mp hy with rfl | hmem
        · exact keyLtB_irrefl _
        · have hyc : keyLtB (key y) (key c) = false := firstMinBy_min key xs c hxs y hmem
          by_cases hyx : keyLtB (key y) (key x) = true
          · by_cases hxc : keyLtB (key x) (key c) = true
            · exact absurd (keyLtB_trans hyx hxc) (by simp [hyc])
            · simp only [Bool.not_eq_true] at hxc
              have : key c = key x := keyLtB_eq_of_not hc hxc
              rw [← this] at hyx
              simp [hyx] at hyc
          · simpa using hyx

theorem filterMap_strictlyLater (cur : String) :
    ∀ l : List (String × String),
      (l.filterMap (fun x =>
        if keyLtB (get_item_sort_key cur) (get_item_sort_key x.1) then
          some (x.1, x.2, get_item_sort_key x.1)
        else none))
      = (strictlyLaterAnchors l cur).map (fun x => (x.1, x.2, get_item_sort_key x.1))
  | [] => rfl
  | x :: xs => by
    have ih := filterMap_strictlyLater cur xs
    unfold strictlyLaterAnchors at ih ⊢
    by_cases h : keyLtB (get_item_sort_key cur) (get_item_sort_key x.1) = true
    · simp [List.filterMap_cons, List.filter_cons, h, ih]
    · simp [List.filterMap_cons, List.filter_cons, h, ih]

theorem insStable_map {α β : Type} (f : α → β) (key : β → Nat × String) (x : α) :
    ∀ l : List α, insStable key (f x) (l.map f) = (insStable (fun a => key (f a)) x l).map f
  | [] => rfl
  | y :: ys => by
    unfold insStable
    by_cases h : keyLeB (key (f x)) (key (f y)) = true
    · simp [h]
    · simp [h, insStable_map f key x ys]

theorem stableSortBy_map {α β : Type} (f : α → β) (key : β → Nat × String) :
    ∀ l : List α, stableSortBy key (l.map f) = (stableSortBy (fun a => key (f a)) l).map f
  | [] => rfl
  | x :: xs => by
    simp only [List.map_cons]
    unfold stableSortBy
    rw [stableSortBy_map f key xs, insStable_map]

/-- Claim C10: the Quality Gate's decision depends only on the extracted
section mapping; its second input (the Target Set keys found by
discovery) is never read, so any two values of it give equal results. -/
theorem C10_gate_ignores_target_found :
    ∀ (extracted : List (String × String)) (tf1 tf2 : List String),
      should_use_xbrl_fallback extracted tf1 = should_use_xbrl_fallback extracted tf2 :=
  fun _ _ _ => rfl

/-- Claim C2: the Quality Gate triggers exactly when the mapping is
empty, or at most 3 of the 6 Target Set keys map to non-empty content,
or some extracted section exceeds 30,000 whitespace-delimited words; and
with exactly 4 non-empty target sections none over 30,000 words it does
not trigger. -/
theorem C2_quality_gate :
    (∀ (extracted : List (String × String)) (tf : List String),
        should_use_xbrl_fallback extracted tf = true ↔ qualityGateSpec extracted)
    ∧ (∀ (extracted : List (String × String)) (tf : List String),
        foundTargetCount extracted = 4 →
        (∀ kv ∈ extracted, pyWordCount kv.2 ≤ 30000) →
        should_use_xbrl_fallback extracted tf = false) := by
  have hmain : ∀ (extracted : List (String × String)) (tf : List String),
      should_use_xbrl_fallback extracted tf = true ↔ qualityGateSpec extracted := by
    intro ex tf
    show (if ex.isEmpty then true
          else if foundTargetCount ex ≤ TARGET_SECTIONS.length / 2 then true
          else if ex.any (fun kv => kv.2 != "" && decide (pyWordCount kv.2 > 30000)) then true
          else false) = true ↔ _
    by_cases he : ex.isEmpty = true
    · rw [if_pos he]
      have hnil : ex = [] := List.isEmpty_iff.mp he
      simp [qualityGateSpec, hnil]
    · rw [if_neg he]
      have hne : ex ≠ [] := fun h => he (by simp [h])
      have h62 : TARGET_SECTIONS.length / 2 = 3 := rfl
      rw [h62]
      by_cases hfc : foundTargetCount ex ≤ 3
      · rw [if_pos hfc]
        simp [qualityGateSpec, hfc]
      · rw [if_neg hfc]
        cases hany : ex.any (fun kv => kv.2 != "" && decide (pyWordCount kv.2 > 30000)) with
        | true =>
          rw [if_pos rfl]
          obtain ⟨kv, hmem, hp⟩ := List.any_eq_true.mp hany
          have h30 : pyWordCount kv.2 > 30000 := by
            have := (Bool.and_eq_true _ _).mp hp
            simpa using this.2
          refine iff_of_true rfl ?_
          exact Or.inr (Or.inr ⟨kv, hmem, h30⟩)
        | false =>
          rw [if_neg (by simp)]
          constructor
          · intro hcontra
            exact absurd hcontra (by simp)
          · intro hspec
            unfold qualityGateSpec at hspec
            rcases hspec with hnil | hle | ⟨kv, hmem, hbig⟩
            · exact absurd hnil hne
            · exact absurd hle hfc
            · have hkv : kv.2 ≠ "" := by
                intro h0
                rw [h0] at hbig
                exact absurd hbig (by decide)
              have hp : (kv.2 != "" && decide (pyWordCount kv.2 > 30000)) = true :=
                (Bool.and_eq_true _ _).mpr
                  ⟨by simpa [bne_iff_ne] using hkv, by simpa using hbig⟩
              have hT : ex.any (fun kv => kv.2 != "" && decide (pyWordCount kv.2 > 30000)) = true :=
                List.any_eq_true.mpr ⟨kv, hmem, hp⟩
              simp [hT] at hany
  refine ⟨hmain, ?_⟩
  intro ex tf hfc hsmall
  have hnspec : ¬ qualityGateSpec ex := by
    rintro (hnil | hle | ⟨kv, hmem, hbig⟩)
    · rw [hnil] at hfc
      exact absurd hfc (by decide)
    · omega
    · exact absurd hbig (Nat.not_lt.mpr (hsmall kv hmem))
  cases hb : should_use_xbrl_fallback ex tf with
  | false => rfl
  | true => exact absurd ((hmain ex tf).mp hb) hnspec

/-- Claim C2 witness: a mapping with exactly four non-empty target
sections, all small, does not trigger the gate. -/
theorem C2_quality_gate_witness :
    should_use_xbrl_fallback
      [("item_1", "x"), ("item_1a", "x"), ("item_1b", "x"), ("item_1c", "x")] [] = false :=
  C2_quality_gate.2 [("item_1", "x"), ("item_1a", "x"), ("item_1b", "x"), ("item_1c", "x")] []
    (by decide) (by decide)

/-- Claim C1 counterexample: the gate rejects the (empty) structural
extraction, so the fallback's sections replace it, yet `main` labels the
result `toc_anchor` (structural) because it re-evaluates the gate on the
replaced mapping: the labeling and replacement decisions disagree. -/
theorem C1_method_label_counterexample :
    should_use_xbrl_fallback [] [] = true ∧
    main_result []
      [("item_1", "a"), ("item_1a", "b"), ("item_1b", "c"), ("item_1c", "d")] []
      = some ("toc_anchor",
          [("item_1", "a"), ("item_1a", "b"), ("item_1b", "c"), ("item_1c", "d")]) :=
  ⟨rfl, rfl⟩

/-- Claim C1 (amended): the method field is `xbrl_fallback` exactly when
the Quality Gate rejects the final (possibly replaced) section mapping,
while replacement itself is decided by the gate on the structural
mapping; the two agree unless the gate rejects the structural mapping
but accepts the fallback's output. -/
theorem C1_method_label :
    (∀ (structural fallback_sections : List (String × String))
        (target_found : List String) (method : String)
        (sections : List (String × String)),
        main_result structural fallback_sections target_found = some (method, sections) →
        (method = "xbrl_fallback" ↔
          should_use_xbrl_fallback sections target_found = true))
    ∧ (∀ (structural fallback_sections : List (String × String))
        (target_found : List String) (method : String)
        (sections : List (String × String)),
        main_result structural fallback_sections target_found = some (method, sections) →
        sections = (if should_use_xbrl_fallback structural target_found = true
                    then fallback_sections else structural)) := by
  constructor
  · intro st fb tf m sec h
    unfold main_result at h
    set E := if should_use_xbrl_fallback st tf = true then fb else st with hE
    by_cases he : E.isEmpty = true
    · rw [if_pos he] at h
      exact absurd h (by simp)
    · rw [if_neg he] at h
      simp only [Option.some.injEq, Prod.mk.injEq] at h
      obtain ⟨hm, hsec⟩ := h
      subst hsec
      by_cases hg : should_use_xbrl_fallback E tf = true
      · rw [if_pos hg] at hm
        subst hm
        simp [hg]
      · rw [if_neg hg] at hm
        subst hm
        constructor
        · intro hcontra
          exact absurd hcontra (by decide)
        · intro hcontra
          exact absurd hcontra hg
  · intro st fb tf m sec h
    unfold main_result at h
    set E := if should_use_xbrl_fallback st tf = true then fb else st with hE
    by_cases he : E.isEmpty = true
    · rw [if_pos he] at h
      exact absurd h (by simp)
    · rw [if_neg he] at h
      simp only [Option.some.injEq, Prod.mk.injEq] at h
      exact h.2.symm

/-- Claim C1 witness: on a run whose structural mapping passes the gate,
the label is `toc_anchor` and the sections are the structural ones. -/
theorem C1_method_label_witness :
    (("toc_anchor" : String) = "xbrl_fallback" ↔
      should_use_xbrl_fallback
        [("item_1", "a"), ("item_1a", "b"), ("item_1b", "c"), ("item_1c", "d")] [] = true)
    ∧ [("item_1", "a"), ("item_1a", "b"), ("item_1b", "c"), ("item_1c", "d")]
        = (if should_use_xbrl_fallback
              [("item_1", "a"), ("item_1a", "b"), ("item_1b", "c"), ("item_1c", "d")] [] = true
           then ([] : List (String × String))
           else [("item_1", "a"), ("item_1a", "b"), ("item_1b", "c"), ("item_1c", "d")]) :=
  ⟨C1_method_label.1
      [("item_1", "a"), ("item_1a", "b"), ("item_1b", "c"), ("item_1c", "d")] [] []
      "toc_anchor"
      [("item_1", "a"), ("item_1a", "b"), ("item_1b", "c"), ("item_1c", "d")] (by decide),
   C1_method_label.2
      [("item_1", "a"), ("item_1a", "b"), ("item_1b", "c"), ("item_1c", "d")] [] []
      "toc_anchor"
      [("item_1", "a"), ("item_1a", "b"), ("item_1b", "c"), ("item_1c", "d")] (by decide)⟩

/-- Claim C3: the Boundary Resolver returns the boundary reference of
the anchor whose key is minimal among anchors whose keys strictly exceed
the target key (earliest in the catalog on ties), and `none` when no
anchor key strictly exceeds the target key; in particular, for catalog
`[item_1, item_1a, item_7]` it maps target `item_1` to `item_1a`'s
boundary and target `item_7` to `none`. -/
theorem C3_boundary_resolver :
    (∀ (all_sections : List (String × String)) (cur : String),
        find_next_available_section all_sections cur
          = (nearestLaterAnchor all_sections cur).map Prod.snd)
    ∧ (∀ (all_sections : List (String × String)) (cur : String)
        (a : String × String), nearestLaterAnchor all_sections cur = some a →
        a ∈ strictlyLaterAnchors all_sections cur ∧
        ∀ x ∈ strictlyLaterAnchors all_sections cur,
          keyLtB (get_item_sort_key x.1) (get_item_sort_key a.1) = false)
    ∧ (∀ (all_sections : List (String × String)) (cur : String),
        (∀ x ∈ all_sections,
          keyLtB (get_item_sort_key cur) (get_item_sort_key x.1) = false) →
        find_next_available_section all_sections cur = none)
    ∧ find_next_available_section
        [("item_1", "b1"), ("item_1a", "b2"), ("item_7", "b3")] "item_1" = some "b2"
    ∧ find_next_available_section
        [("item_1", "b1"), ("item_1a", "b2"), ("item_7", "b3")] "item_7" = none := by
  have hmain : ∀ (all_sections : List (String × String)) (cur : String),
      find_next_available_section all_sections cur
        = (nearestLaterAnchor all_sections cur).map Prod.snd := by
    intro secs cur
    unfold find_next_available_section
    dsimp only
    rw [filterMap_strictlyLater cur secs,
      stableSortBy_map (fun x : String × String => (x.1, x.2, get_item_sort_key x.1))
        (fun t => t.2.2)]
    unfold nearestLaterAnchor
    rw [← head?_stableSortBy]
    cases stableSortBy (fun x : String × String => get_item_sort_key x.1)
        (strictlyLaterAnchors secs cur) with
    | nil => rfl
    | cons z zs => rfl
  refine ⟨hmain, ?_, ?_, by decide, by decide⟩
  · intro secs cur a h
    unfold nearestLaterAnchor at h
    exact ⟨firstMinBy_mem _ _ a h, firstMinBy_min _ _ a h⟩
  · intro secs cur hall
    rw [hmain]
    unfold nearestLaterAnchor
    have hnil : strictlyLaterAnchors secs cur = [] := by
      unfold strictlyLaterAnchors
      exact List.filter_eq_nil_iff.mpr (fun x hx => by simp [hall x hx])
    rw [hnil]
    rfl

/-- Claim C3 witness: the resolver returns `none` for a catalog with no
strictly later anchor, and the nearest-later anchor of a two-anchor
catalog is a member of minimal key among the strictly later anchors. -/
theorem C3_boundary_resolver_witness :
    (find_next_available_section [("item_7", "b3")] "item_7a" = none)
    ∧ (("item_1a", "b2") ∈ strictlyLaterAnchors
          [("item_1", "b1"), ("item_1a", "b2")] "item_1" ∧
        ∀ x ∈ strictlyLaterAnchors [("item_1", "b1"), ("item_1a", "b2")] "item_1",
          keyLtB (get_item_sort_key x.1)
            (get_item_sort_key (("item_1a", "b2") : String × String).1) = false) :=
  ⟨C3_boundary_resolver.2.2.1 [("item_7", "b3")] "item_7a" (by decide),
   C3_boundary_resolver.2.1 [("item_1", "b1"), ("item_1a", "b2")] "item_1"
     ("item_1a", "b2") (by decide)⟩

/-- Claim C4 counterexample: `item_1abc` is not of the form
`item_<number><optional letter>`, yet `re.match` only anchors at the
start, so it receives sort key `(1, "a")` and sorts strictly before the
well-formed key `item_2` instead of after every well-formed key. -/
theorem C4_canonical_order_counterexample :
    wellFormedKeyB "item_1abc" = false ∧
    wellFormedKeyB "item_2" = true ∧
    get_item_sort_key "item_1abc" = (1, "a") ∧
    keyLtB (get_item_sort_key "item_1abc") (get_item_sort_key "item_2") = true ∧
    keyLtB (get_item_sort_key "item_2") (get_item_sort_key "item_1abc") = false := by
  decide

/-- Claim C4 (amended): the sort key induces a strict total order
comparing number first and letter second (absence of a letter before any
letter), with `item_1 < item_1a < item_1c < item_2 < item_7 < item_7a`
and distinct keys of the known universe receiving distinct sort keys;
keys that do not even begin with an `item_<number>` prefix map to the
sentinel `(999, "")` and sort strictly after every key whose number is
below 999, while malformed keys that do begin with such a prefix sort as
that prefix. -/
theorem C4_canonical_order :
    (keyLtB (get_item_sort_key "item_1") (get_item_sort_key "item_1a") = true
      ∧ keyLtB (get_item_sort_key "item_1a") (get_item_sort_key "item_1c") = true
      ∧ keyLtB (get_item_sort_key "item_1c") (get_item_sort_key "item_2") = true
      ∧ keyLtB (get_item_sort_key "item_2") (get_item_sort_key "item_7") = true
      ∧ keyLtB (get_item_sort_key "item_7") (get_item_sort_key "item_7a") = true)
    ∧ (∀ k : Nat × String, keyLtB k k = false)
    ∧ (∀ k1 k2 : Nat × String, keyLtB k1 k2 = true → keyLtB k2 k1 = false)
    ∧ (∀ k1 k2 k3 : Nat × String,
        keyLtB k1 k2 = true → keyLtB k2 k3 = true → keyLtB k1 k3 = true)
    ∧ (∀ k1 k2 : Nat × String,
        keyLtB k1 k2 = false → keyLtB k2 k1 = false → k1 = k2)
    ∧ (∀ (n : Nat) (l : String), l ≠ "" → keyLtB (n, "") (n, l) = true)
    ∧ (∀ k1 ∈ SECTION_MAPPINGS.map Prod.fst, ∀ k2 ∈ SECTION_MAPPINGS.map Prod.fst,
        get_item_sort_key k1 = get_item_sort_key k2 → k1 = k2)
    ∧ (∀ s t : String, itemKeyParse t = none → (get_item_sort_key s).1 < 999 →
        keyLtB (get_item_sort_key s) (get_item_sort_key t) = true) := by
  refine ⟨by decide, keyLtB_irrefl, fun _ _ h => keyLtB_asymm h,
    fun _ _ _ h1 h2 => keyLtB_trans h1 h2,
    fun _ _ h1 h2 => keyLtB_eq_of_not h1 h2, ?_, by decide, ?_⟩
  · intro n l hl
    cases hd : l.data with
    | nil => exact absurd (String.ext hd) hl
    | cons c cs =>
      show (decide (n < n) || (decide (n = n) && listLtB (String.data "") l.data)) = true
      rw [hd]
      simp [listLtB]
  · intro s t hparse hnum
    have ht : get_item_sort_key t = (999, "") := by
      unfold get_item_sort_key
      rw [hparse]
    rw [ht]
    show (decide ((get_item_sort_key s).1 < 999) || _) = true
    simp [hnum]

/-- Claim C4 witness: the letter-absent key sorts before the lettered
key with the same number, and a key with no `item_` prefix sorts after a
well-formed key. -/
theorem C4_canonical_order_witness :
    keyLtB (3, "") (3, "a") = true ∧
    keyLtB (get_item_sort_key "item_5") (get_item_sort_key "zzz") = true :=
  ⟨C4_canonical_order.2.2.2.2.2.1 3 "a" (by decide),
   C4_canonical_order.2.2.2.2.2.2.2 "item_5" "zzz" (by decide) (by decide)⟩

/-! Invariant lemmas for anchor discovery (claim C6). -/

theorem textSearchStep_inv (st : List String × List (String × String)) (e : Element)
    (h1 : (st.2.map Prod.fst).Nodup) (h2 : ∀ k ∈ st.2.map Prod.fst, k ∈ st.1) :
    ((textSearchStep st e).2.map Prod.fst).Nodup ∧
      ∀ k ∈ (textSearchStep st e).2.map Prod.fst, k ∈ (textSearchStep st e).1 := by
  obtain ⟨seen, found⟩ := st
  unfold textSearchStep
  dsimp only at h1 h2 ⊢
  by_cases hskip : e.text = "" ∨ e.text.length > 200
  · rw [if_pos hskip]
    exact ⟨h1, h2⟩
  · rw [if_neg hskip]
    by_cases hexp : ((is_target_item_explicit e.text).1
        && !(seen.contains (is_target_item_explicit e.text).2)) = true
    · rw [if_pos hexp]
      have hnot : (is_target_item_explicit e.text).2 ∉ seen := by
        have := ((Bool.and_eq_true _ _).mp hexp).2
        simpa using this
      constructor
      · dsimp only
        rw [List.map_append]
        refine List.nodup_append.mpr ⟨h1, by simp, ?_⟩
        intro k hk
        simp only [List.map_cons, List.map_nil, List.mem_singleton]
        intro hkeq
        exact hnot (hkeq ▸ h2 k hk)
      · intro k hk
        dsimp only at hk
        rw [List.map_append] at hk
        rcases List.mem_append.mp hk with hk | hk
        · exact List.mem_cons_of_mem _ (h2 k hk)
        · simp only [List.map_cons, List.map_nil, List.mem_singleton] at hk
          subst hk
          exact List.mem_cons_self _ _
    · rw [if_neg hexp]
      by_cases hsem : ((is_target_item_semantic e.text).1
          && !(seen.contains (is_target_item_semantic e.text).2)) = true
      · rw [if_pos hsem]
        have hnot : (is_target_item_semantic e.text).2 ∉ seen := by
          have := ((Bool.and_eq_true _ _).mp hsem).2
          simpa using this
        constructor
        · dsimp only
          rw [List.map_append]
          refine List.nodup_append.mpr ⟨h1, by simp, ?_⟩
          intro k hk
          simp only [List.map_cons, List.map_nil, List.mem_singleton]
          intro hkeq
          exact hnot (hkeq ▸ h2 k hk)
        · intro k hk
          dsimp only at hk
          rw [List.map_append] at hk
          rcases List.mem_append.mp hk with hk | hk
          · exact List.mem_cons_of_mem _ (h2 k hk)
          · simp only [List.map_cons, List.map_nil, List.mem_singleton] at hk
            subst hk
            exact List.mem_cons_self _ _
      · rw [if_neg hsem]
        exact ⟨h1, h2⟩

theorem foldl_textSearch_inv : ∀ (elements : List Element)
    (st : List String × List (String × String)),
    (st.2.map Prod.fst).Nodup → (∀ k ∈ st.2.map Prod.fst, k ∈ st.1) →
    (((elements.foldl textSearchStep st).2.map Prod.fst).Nodup ∧
      ∀ k ∈ (elements.foldl textSearchStep st).2.map Prod.fst,
        k ∈ (elements.foldl textSearchStep st).1)
  | [], st, h1, h2 => ⟨h1, h2⟩
  | e :: es, st, h1, h2 => by
    rw [List.foldl_cons]
    have := textSearchStep_inv st e h1 h2
    exact foldl_textSearch_inv es (textSearchStep st e) this.1 this.2

theorem anchorScanStep_inv (st : List String × List (String × String)) (a : Link)
    (h1 : (st.2.map Prod.fst).Nodup) (h2 : ∀ k ∈ st.2.map Prod.fst, k ∈ st.1) :
    ((anchorScanStep st a).2.map Prod.fst).Nodup ∧
      ∀ k ∈ (anchorScanStep st a).2.map Prod.fst, k ∈ (anchorScanStep st a).1 := by
  obtain ⟨seen, out⟩ := st
  unfold anchorScanStep
  dsimp only at h1 h2 ⊢
  by_cases hhref : (!(pyStripStr a.href).startsWith "#") = true
  · rw [if_pos hhref]
    exact ⟨h1, h2⟩
  · rw [if_neg hhref]
    by_cases hlab : a.label = ""
    · rw [if_pos hlab]
      exact ⟨h1, h2⟩
    · rw [if_neg hlab]
      by_cases hexp : ((is_target_item_explicit a.label).1
          && !(seen.contains (is_target_item_explicit a.label).2)) = true
      · rw [if_pos hexp]
        have hnot : (is_target_item_explicit a.label).2 ∉ seen := by
          have := ((Bool.and_eq_true _ _).mp hexp).2
          simpa using this
        constructor
        · dsimp only
          rw [List.map_append]
          refine List.nodup_append.mpr ⟨h1, by simp, ?_⟩
          intro k hk
          simp only [List.map_cons, List.map_nil, List.mem_singleton]
          intro hkeq
          exact hnot (hkeq ▸ h2 k hk)
        · intro k hk
          dsimp only at hk
          rw [List.map_append] at hk
          rcases List.mem_append.mp hk with hk | hk
          · exact List.mem_cons_of_mem _ (h2 k hk)
          · simp only [List.map_cons, List.map_nil, List.mem_singleton] at hk
            subst hk
            exact List.mem_cons_self _ _
      · rw [if_neg hexp]
        by_cases hsem : ((is_target_item_semantic a.label).1
            && !(seen.contains (is_target_item_semantic a.label).2)) = true
        · rw [if_pos hsem]
          have hnot : (is_target_item_semantic a.label).2 ∉ seen := by
            have := ((Bool.and_eq_true _ _).mp hsem).2
            simpa using this
          constructor
          · dsimp only
            rw [List.map_append]
            refine List.nodup_append.mpr ⟨h1, by simp, ?_⟩
            intro k hk
            simp only [List.map_cons, List.map_nil, List.mem_singleton]
            intro hkeq
            exact hnot (hkeq ▸ h2 k hk)
          · intro k hk
            dsimp only at hk
            rw [List.map_append] at hk
            rcases List.mem_append.mp hk with hk | hk
            · exact List.mem_cons_of_mem _ (h2 k hk)
            · simp only [List.map_cons, List.map_nil, List.mem_singleton] at hk
              subst hk
              exact List.mem_cons_self _ _
        · rw [if_neg hsem]
          exact ⟨h1, h2⟩

theorem foldl_anchorScan_inv : ∀ (links : List Link)
    (st : List String × List (String × String)),
    (st.2.map Prod.fst).Nodup → (∀ k ∈ st.2.map Prod.fst, k ∈ st.1) →
    (((links.foldl anchorScanStep st).2.map Prod.fst).Nodup ∧
      ∀ k ∈ (links.foldl anchorScanStep st).2.map Prod.fst,
        k ∈ (links.foldl anchorScanStep st).1)
  | [], st, h1, h2 => ⟨h1, h2⟩
  | a :: links, st, h1, h2 => by
    rw [List.foldl_cons]
    have := anchorScanStep_inv st a h1 h2
    exact foldl_anchorScan_inv links (anchorScanStep st a) this.1 this.2

/-- Claim C6: for every document (modelled by its navigation-link list
and block-element list), the Anchor Catalog produced by discovery
contains at most one anchor per Section Key: the catalog's key list has
no duplicates. -/
theorem C6_anchor_uniqueness :
    ∀ (links : List Link) (elements : List Element),
      ((extract_all_section_anchors links elements).map Prod.fst).Nodup := by
  intro links elements
  unfold extract_all_section_anchors
  dsimp only
  have hmerged : ((if ((links.foldl anchorScanStep ([], [])).2).isEmpty
      then extract_sections_by_text_search elements
      else (links.foldl anchorScanStep ([], [])).2).map Prod.fst).Nodup := by
    by_cases h : ((links.foldl anchorScanStep ([], [])).2).isEmpty = true
    · rw [if_pos h]
      exact (foldl_textSearch_inv elements ([], []) (by simp) (by simp)).1
    · rw [if_neg h]
      exact (foldl_anchorScan_inv links ([], []) (by simp) (by simp)).1
  have hperm := (stableSortBy_perm (fun x : String × String => get_item_sort_key x.1)
    (if ((links.foldl anchorScanStep ([], [])).2).isEmpty
     then extract_sections_by_text_search elements
     else (links.foldl anchorScanStep ([], [])).2)).map Prod.fst
  exact hperm.symm.nodup hmerged

/-! Character-level lemmas for normalizer idempotence (claim C7). -/

theorem toNat_ofNat_valid (n : Nat) (h : n.isValidChar) : (Char.ofNat n).toNat = n := by
  simp [Char.ofNat, h, Char.ofNatAux, Char.toNat, UInt32.toNat]

theorem pyLowerC_idem (c : Char) : pyLowerC (pyLowerC c) = pyLowerC c := by
  show Char.toLower (Char.toLower c) = Char.toLower c
  unfold Char.toLower
  dsimp only
  by_cases h : c.toNat ≥ 65 ∧ c.toNat ≤ 90
  · rw [if_pos h]
    have hv : (c.toNat + 32).isValidChar := Or.inl (by omega)
    have ht : (Char.ofNat (c.toNat + 32)).toNat = c.toNat + 32 := toNat_ofNat_valid _ hv
    rw [ht, if_neg (by omega)]
  · rw [if_neg h, if_neg h]

theorem nfkdChar_fixed_of_word {c : Char} (h : isWordCharB c = true) :
    nfkdChar c = [c] := by
  unfold nfkdChar
  by_cases h1 : c = Char.ofNat 160
  · subst h1
    exact absurd h (by decide)
  · by_cases h2 : c = Char.ofNat 0xFB01
    · subst h2
      exact absurd h (by decide)
    · by_cases h3 : c = Char.ofNat 0xFB02
      · subst h3
        exact absurd h (by decide)
      · rw [if_neg h1, if_neg h2, if_neg h3]

theorem word_ne_nbsp {c : Char} (h : isWordCharB c = true) : c ≠ Char.ofNat 160 := by
  intro hc
  subst hc
  exact absurd h (by decide)

theorem mem_collapseWs : ∀ (l : List Char) (c : Char), c ∈ collapseWs l →
    c = ' ' ∨ (c ∈ l ∧ pyIsSpaceB c = false)
  | [], c, h => by simp [collapseWs] at h
  | a :: l, c, h => by
    unfold collapseWs at h
    dsimp only at h
    by_cases ha : pyIsSpaceB a = true
    · rw [if_pos ha] at h
      by_cases hh : (collapseWs l).head? = some ' '
      · rw [if_pos hh] at h
        rcases mem_collapseWs l c h with h' | ⟨hm, hs⟩
        · exact Or.inl h'
        · exact Or.inr ⟨List.mem_cons_of_mem a hm, hs⟩
      · rw [if_neg hh] at h
        rcases List.mem_cons.mp h with rfl | h'
        · exact Or.inl rfl
        · rcases mem_collapseWs l c h' with h'' | ⟨hm, hs⟩
          · exact Or.inl h''
          · exact Or.inr ⟨List.mem_cons_of_mem a hm, hs⟩
    · rw [if_neg ha] at h
      rcases List.mem_cons.mp h with rfl | h'
      · exact Or.inr ⟨List.mem_cons_self _ _, by simpa using ha⟩
      · rcases mem_collapseWs l c h' with h'' | ⟨hm, hs⟩
        · exact Or.inl h''
        · exact Or.inr ⟨List.mem_cons_of_mem a hm, hs⟩

theorem spaces_collapseWs {l : List Char} {c : Char} (hm : c ∈ collapseWs l)
    (hs : pyIsSpaceB c = true) : c = ' ' := by
  rcases mem_collapseWs l c hm with h | ⟨_, hns⟩
  · exact h
  · rw [hns] at hs
    exact absurd hs (by simp)

theorem noAdjB_cons {a : Char} {l : List Char} (h : noAdjB (a :: l) = true) :
    noAdjB l = true := by
  cases l with
  | nil => rfl
  | cons b t =>
    simp only [noAdjB, Bool.and_eq_true] at h
    exact h.2

theorem noAdjB_append_right : ∀ {t s : List Char}, noAdjB (t ++ s) = true →
    noAdjB s = true
  | [], _, h => h
  | _ :: t, s, h => noAdjB_append_right (t := t) (noAdjB_cons h)

theorem noAdjB_append_left : ∀ {s t : List Char}, noAdjB (s ++ t) = true →
    noAdjB s = true
  | [], _, _ => rfl
  | [_], _, _ => rfl
  | a :: b :: s, t, h => by
    have h' : (!(pyIsSpaceB a && pyIsSpaceB b) && noAdjB (b :: (s ++ t))) = true := h
    obtain ⟨h1, h2⟩ := (Bool.and_eq_true _ _).mp h'
    have hrec := noAdjB_append_left (s := b :: s) (t := t) h2
    show (!(pyIsSpaceB a && pyIsSpaceB b) && noAdjB (b :: s)) = true
    exact (Bool.and_eq_true _ _).mpr ⟨h1, hrec⟩

theorem noAdjB_collapseWs : ∀ l : List Char, noAdjB (collapseWs l) = true
  | [] => rfl
  | a :: l => by
    unfold collapseWs
    dsimp only
    by_cases ha : pyIsSpaceB a = true
    · rw [if_pos ha]
      by_cases hh : (collapseWs l).head? = some ' '
      · rw [if_pos hh]
        exact noAdjB_collapseWs l
      · rw [if_neg hh]
        cases hr : collapseWs l with
        | nil => rfl
        | cons d r =>
          have hd : pyIsSpaceB d = false := by
            by_contra hcon
            have hd' : d = ' ' :=
              spaces_collapseWs (l := l) (by rw [hr]; exact List.mem_cons_self d r)
                (by simpa using hcon)
            rw [hr, hd'] at hh
            exact hh rfl
          have hrec := noAdjB_collapseWs l
          rw [hr] at hrec
          simp [noAdjB, hd, hrec]
    · rw [if_neg ha]
      cases hr : collapseWs l with
      | nil => rfl
      | cons d r =>
        have hrec := noAdjB_collapseWs l
        rw [hr] at hrec
        simp [noAdjB, ha, hrec]

theorem collapseWs_fixed : ∀ l : List Char,
    (∀ c ∈ l, pyIsSpaceB c = true → c = ' ') → noAdjB l = true →
    collapseWs l = l
  | [], _, _ => rfl
  | a :: l, hsp, hadj => by
    unfold collapseWs
    dsimp only
    have hrec : collapseWs l = l :=
      collapseWs_fixed l (fun c hc => hsp c (List.mem_cons_of_mem a hc)) (noAdjB_cons hadj)
    by_cases ha : pyIsSpaceB a = true
    · rw [if_pos ha, hrec]
      have ha' : a = ' ' := hsp a (List.mem_cons_self _ _) ha
      have hh : l.head? ≠ some ' ' := by
        cases l with
        | nil => simp
        | cons d r =>
          intro hcon
          simp only [List.head?_cons, Option.some.injEq] at hcon
          subst hcon
          simp only [noAdjB, Bool.and_eq_true] at hadj
          rw [ha] at hadj
          simp [pyIsSpaceB] at hadj
      rw [if_neg hh, ha']
    · rw [if_neg ha, hrec]

theorem head?_dropWhile_not (p : Char → Bool) : ∀ (l : List Char) (c : Char),
    (l.dropWhile p).head? = some c → p c = false
  | [], c, h => by simp at h
  | a :: l, c, h => by
    by_cases ha : p a = true
    · rw [List.dropWhile_cons, if_pos ha] at h
      exact head?_dropWhile_not p l c h
    · rw [List.dropWhile_cons, if_neg ha] at h
      simp only [List.head?_cons, Option.some.injEq] at h
      subst h
      simpa using ha

theorem dropWhile_eq_self_of_head (p : Char → Bool) (l : List Char)
    (h : ∀ c, l.head? = some c → p c = false) : l.dropWhile p = l := by
  cases l with
  | nil => rfl
  | cons a t =>
    rw [List.dropWhile_cons, if_neg]
    simp [h a rfl]

theorem pyStripList_infix (l : List Char) :
    ∃ u v, l = u ++ pyStripList l ++ v := by
  unfold pyStripList
  refine ⟨l.takeWhile pyIsSpaceB,
    ((l.dropWhile pyIsSpaceB).reverse.takeWhile pyIsSpaceB).reverse, ?_⟩
  have h1 : l = l.takeWhile pyIsSpaceB ++ l.dropWhile pyIsSpaceB :=
    (List.takeWhile_append_dropWhile _ _).symm
  have h2 : (l.dropWhile pyIsSpaceB).reverse
      = (l.dropWhile pyIsSpaceB).reverse.takeWhile pyIsSpaceB
        ++ (l.dropWhile pyIsSpaceB).reverse.dropWhile pyIsSpaceB :=
    (List.takeWhile_append_dropWhile _ _).symm
  have h3 : l.dropWhile pyIsSpaceB
      = ((l.dropWhile pyIsSpaceB).reverse.dropWhile pyIsSpaceB).reverse
        ++ ((l.dropWhile pyIsSpaceB).reverse.takeWhile pyIsSpaceB).reverse := by
    conv_lhs => rw [← List.reverse_reverse (l.dropWhile pyIsSpaceB)]
    conv_lhs => rw [h2]
    rw [List.reverse_append]
  conv_lhs => rw [h1, h3]
  rw [List.append_assoc]

theorem mem_pyStripList {l : List Char} {c : Char} (h : c ∈ pyStripList l) :
    c ∈ l := by
  obtain ⟨u, v, he⟩ := pyStripList_infix l
  rw [he]
  exact List.mem_append.mpr (Or.inl (List.mem_append.mpr (Or.inr h)))

theorem pyStripList_head (l : List Char) (c : Char)
    (h : (pyStripList l).head? = some c) : pyIsSpaceB c = false := by
  have h2 : (l.dropWhile pyIsSpaceB).reverse
      = (l.dropWhile pyIsSpaceB).reverse.takeWhile pyIsSpaceB
        ++ (l.dropWhile pyIsSpaceB).reverse.dropWhile pyIsSpaceB :=
    (List.takeWhile_append_dropWhile _ _).symm
  have h3 : l.dropWhile pyIsSpaceB
      = pyStripList l
        ++ ((l.dropWhile pyIsSpaceB).reverse.takeWhile pyIsSpaceB).reverse := by
    unfold pyStripList
    conv_lhs => rw [← List.reverse_reverse (l.dropWhile pyIsSpaceB)]
    conv_lhs => rw [h2]
    rw [List.reverse_append]
  have hhead : (l.dropWhile pyIsSpaceB).head? = some c := by
    rw [h3]
    cases hs : pyStripList l with
    | nil => rw [hs] at h; simp at h
    | cons d r =>
      rw [hs] at h
      simp only [List.head?_cons, Option.some.injEq] at h
      subst h
      rfl
  exact head?_dropWhile_not _ _ _ hhead

theorem pyStripList_getLast (l : List Char) (c : Char)
    (h : (pyStripList l).getLast? = some c) : pyIsSpaceB c = false := by
  unfold pyStripList at h
  rw [List.getLast?_reverse] at h
  exact head?_dropWhile_not _ _ _ h

theorem pyStripList_fixed (l : List Char)
    (hh : ∀ c, l.head? = some c → pyIsSpaceB c = false)
    (hl : ∀ c, l.getLast? = some c → pyIsSpaceB c = false) :
    pyStripList l = l := by
  unfold pyStripList
  rw [dropWhile_eq_self_of_head _ _ hh]
  rw [dropWhile_eq_self_of_head _ _ (fun c hc => hl c (by rwa [List.head?_reverse] at hc))]
  rw [List.reverse_reverse]

theorem flatMap_id_of_fixed (f : Char → List Char) : ∀ (l : List Char),
    (∀ c ∈ l, f c = [c]) → l.flatMap f = l
  | [], _ => rfl
  | a :: l, h => by
    simp only [List.flatMap_cons, h a (List.mem_cons_self _ _)]
    rw [flatMap_id_of_fixed f l (fun c hc => h c (List.mem_cons_of_mem a hc))]
    rfl

theorem map_id_of_fixed (f : Char → Char) (l : List Char)
    (h : ∀ c ∈ l, f c = c) : l.map f = l := by
  rw [List.map_congr_left (g := id) h, List.map_id]

/-- Claim C7: the Label Normalizer is idempotent — normalizing an
already-normalized string returns it unchanged — and total, with empty
input yielding empty output. -/
theorem C7_normalize_idempotent :
    (∀ s : String,
      normalize_anchor_text (normalize_anchor_text s) = normalize_anchor_text s)
    ∧ normalize_anchor_text "" = "" := by
  refine ⟨?_, rfl⟩
  intro s
  have hns : normalize_anchor_text s
      = String.mk (pyStripList (collapseWs
          ((((s.data.flatMap nfkdChar).map
              (fun c => if c = Char.ofNat 160 then ' ' else c)).map pyLowerC).filter
            (fun c => isWordCharB c || pyIsSpaceB c)))) := rfl
  set l2 := (((s.data.flatMap nfkdChar).map
      (fun c => if c = Char.ofNat 160 then ' ' else c)).map pyLowerC).filter
        (fun c => isWordCharB c || pyIsSpaceB c) with hl2
  set out := pyStripList (collapseWs l2) with hout_def
  -- characterize the characters of the first pass's output
  have hout : ∀ c ∈ out, c = ' '
      ∨ (isWordCharB c = true ∧ pyIsSpaceB c = false ∧ pyLowerC c = c) := by
    intro c hc
    have hcm : c ∈ collapseWs l2 := mem_pyStripList hc
    rcases mem_collapseWs l2 c hcm with h' | ⟨hm, hnsp⟩
    · exact Or.inl h'
    · right
      rw [hl2] at hm
      obtain ⟨hmm, hkeep⟩ := List.mem_filter.mp hm
      have hword : isWordCharB c = true := by
        rcases Bool.or_eq_true _ _ |>.mp hkeep with h | h
        · exact h
        · rw [h] at hnsp
          exact absurd hnsp (by simp)
      obtain ⟨d, _, hd⟩ := List.mem_map.mp hmm
      refine ⟨hword, hnsp, ?_⟩
      rw [← hd]
      exact pyLowerC_idem d
  have hspaces : ∀ c ∈ out, pyIsSpaceB c = true → c = ' ' := by
    intro c hc hs
    rcases hout c hc with h | ⟨_, hnsp, _⟩
    · exact h
    · rw [hnsp] at hs
      exact absurd hs (by simp)
  have hadj : noAdjB out = true := by
    obtain ⟨u, v, he⟩ := pyStripList_infix (collapseWs l2)
    exact noAdjB_append_left (noAdjB_append_right
      (by rw [List.append_assoc] at he; rw [← he]; exact noAdjB_collapseWs l2))
  have h0 : out.flatMap nfkdChar = out := by
    refine flatMap_id_of_fixed _ _ (fun c hc => ?_)
    rcases hout c hc with rfl | ⟨hw, _, _⟩
    · decide
    · exact nfkdChar_fixed_of_word hw
  have h1 : out.map (fun c => if c = Char.ofNat 160 then ' ' else c) = out := by
    refine map_id_of_fixed _ _ (fun c hc => ?_)
    rcases hout c hc with rfl | ⟨hw, _, _⟩
    · rw [if_neg (by decide)]
    · rw [if_neg (word_ne_nbsp hw)]
  have h2 : out.map pyLowerC = out := by
    refine map_id_of_fixed _ _ (fun c hc => ?_)
    rcases hout c hc with rfl | ⟨_, _, hlow⟩
    · decide
    · exact hlow
  have h3 : out.filter (fun c => isWordCharB c || pyIsSpaceB c) = out := by
    refine List.filter_eq_self.mpr (fun c hc => ?_)
    rcases hout c hc with rfl | ⟨hw, _, _⟩
    · simp [pyIsSpaceB]
    · simp [hw]
  have h4 : collapseWs out = out := collapseWs_fixed out hspaces hadj
  have h5 : pyStripList out = out :=
    pyStripList_fixed out (fun c hc => pyStripList_head _ c hc)
      (fun c hc => pyStripList_getLast _ c hc)
  rw [hns]
  show String.mk (pyStripList (collapseWs ((((out.flatMap nfkdChar).map
      (fun c => if c = Char.ofNat 160 then ' ' else c)).map pyLowerC).filter
        (fun c => isWordCharB c || pyIsSpaceB c)))) = String.mk out
  rw [h0, h1, h2, h3, h4, h5]

/-! Lemmas about the explicit-match regex search (claim C5). -/

theorem space_not_digit {c : Char} (h : pyIsSpaceB c = true) : c.isDigit = false := by
  unfold pyIsSpaceB at h
  simp only [Bool.or_eq_true, decide_eq_true_eq] at h
  rcases h with ((((((h | h) | h) | h) | h) | h) | h) <;> subst h <;> decide

theorem digit_not_space {c : Char} (h : c.isDigit = true) : pyIsSpaceB c = false := by
  cases hs : pyIsSpaceB c with
  | false => rfl
  | true => simp [space_not_digit hs] at h

theorem dropWhile_append_of_all (p : Char → Bool) : ∀ (ws l : List Char),
    (∀ c ∈ ws, p c = true) → (ws ++ l).dropWhile p = l.dropWhile p
  | [], _, _ => rfl
  | a :: ws, l, h => by
    rw [List.cons_append, List.dropWhile_cons, if_pos (h a (List.mem_cons_self _ _))]
    exact dropWhile_append_of_all p ws l (fun c hc => h c (List.mem_cons_of_mem a hc))

theorem itemMatchAt_cons (c1 c2 c3 c4 : Char) (rest : List Char) :
    itemMatchAt (c1 :: c2 :: c3 :: c4 :: rest)
      = if c1 = 'i' ∧ c2 = 't' ∧ c3 = 'e' ∧ c4 = 'm' then
          (if (List.takeWhile Char.isDigit (rest.dropWhile pyIsSpaceB)).isEmpty then none
           else
             some (List.takeWhile Char.isDigit (rest.dropWhile pyIsSpaceB),
               match (rest.dropWhile pyIsSpaceB).dropWhile Char.isDigit with
               | c :: _ => if 'a' ≤ c ∧ c ≤ 'z' then [c] else []
               | [] => []))
        else none := rfl

theorem searchItemAfter_decomp : ∀ (l : List Char) (r : List Char × List Char),
    searchItemAfter l = some r →
    ∃ pre rest, l = pre ++ rest ∧ itemMatchAt rest = some r
  | [], r, h => by simp [searchItemAfter] at h
  | c :: cs, r, h => by
    unfold searchItemAfter at h
    cases hm : itemMatchAt (c :: cs) with
    | some r' =>
      rw [hm] at h
      dsimp only at h
      simp only [Option.some.injEq] at h
      exact ⟨[], c :: cs, rfl, by rw [hm, h]⟩
    | none =>
      rw [hm] at h
      dsimp only at h
      obtain ⟨pre, rest, heq, hm'⟩ := searchItemAfter_decomp cs r h
      exact ⟨c :: pre, rest, by rw [heq]; rfl, hm'⟩

theorem itemMatchAt_decomp : ∀ (rest ds ls : List Char),
    itemMatchAt rest = some (ds, ls) →
    ∃ ws suf, rest = 'i' :: 't' :: 'e' :: 'm' :: (ws ++ ds ++ suf)
      ∧ (∀ c ∈ ws, pyIsSpaceB c = true) ∧ ds ≠ []
      ∧ (∀ c ∈ ds, Char.isDigit c = true) := by
  intro rest ds ls h
  match rest with
  | [] => simp [itemMatchAt] at h
  | [c1] => simp [itemMatchAt] at h
  | [c1, c2] => simp [itemMatchAt] at h
  | [c1, c2, c3] => simp [itemMatchAt] at h
  | c1 :: c2 :: c3 :: c4 :: rest' =>
    rw [itemMatchAt_cons] at h
    by_cases hc : c1 = 'i' ∧ c2 = 't' ∧ c3 = 'e' ∧ c4 = 'm'
    · rw [if_pos hc] at h
      obtain ⟨rfl, rfl, rfl, rfl⟩ := hc
      by_cases hds : (List.takeWhile Char.isDigit (rest'.dropWhile pyIsSpaceB)).isEmpty = true
      · rw [if_pos hds] at h
        cases h
      · rw [if_neg hds] at h
        simp only [Option.some.injEq, Prod.mk.injEq] at h
        obtain ⟨hds_eq, _⟩ := h
        refine ⟨rest'.takeWhile pyIsSpaceB,
          (rest'.dropWhile pyIsSpaceB).dropWhile Char.isDigit, ?_, ?_, ?_, ?_⟩
        · simp only [List.cons.injEq, true_and]
          rw [← hds_eq, List.append_assoc, List.takeWhile_append_dropWhile,
            List.takeWhile_append_dropWhile]
        · exact fun c hc => List.mem_takeWhile_imp hc
        · rw [← hds_eq]
          simpa using hds
        · intro c hc
          rw [← hds_eq] at hc
          exact List.mem_takeWhile_imp hc
    · rw [if_neg hc] at h
      cases h

theorem itemMatchAt_of_shape (ws ds suf : List Char)
    (hws : ∀ c ∈ ws, pyIsSpaceB c = true) (hne : ds ≠ [])
    (hds : ∀ c ∈ ds, Char.isDigit c = true) :
    (itemMatchAt ('i' :: 't' :: 'e' :: 'm' :: (ws ++ ds ++ suf))).isSome = true := by
  rw [itemMatchAt_cons]
  rw [if_pos ⟨rfl, rfl, rfl, rfl⟩]
  rw [List.append_assoc, dropWhile_append_of_all pyIsSpaceB ws (ds ++ suf) hws]
  cases ds with
  | nil => exact absurd rfl hne
  | cons d ds' =>
    have hd : Char.isDigit d = true := hds d (List.mem_cons_self _ _)
    have hsp : pyIsSpaceB d = false := digit_not_space hd
    simp [List.cons_append, List.dropWhile_cons, hsp, List.takeWhile_cons, hd]

theorem searchItemAfter_of_match : ∀ (pre rest : List Char),
    (itemMatchAt rest).isSome = true → (searchItemAfter (pre ++ rest)).isSome = true
  | [], rest, h => by
    cases rest with
    | nil => simp [itemMatchAt] at h
    | cons c cs =>
      show (searchItemAfter (c :: cs)).isSome = true
      unfold searchItemAfter
      cases hm : itemMatchAt (c :: cs) with
      | some r => simp
      | none =>
        rw [hm] at h
        simp at h
  | a :: pre, rest, h => by
    rw [List.cons_append]
    unfold searchItemAfter
    cases hm : itemMatchAt (a :: (pre ++ rest)) with
    | some r => simp
    | none =>
      dsimp only
      exact searchItemAfter_of_match pre rest h

theorem explicit_matched_iff (s : String) :
    (is_target_item_explicit s).1 = true
      ↔ (searchItemAfter (normalize_anchor_text s).data).isSome = true := by
  unfold is_target_item_explicit
  dsimp only
  cases h : searchItemAfter (normalize_anchor_text s).data with
  | none => simp
  | some r =>
    obtain ⟨ds, ls⟩ := r
    simp

/-- Claim C5: the explicit classifier returns matched exactly when the
normalized label contains "item" followed by optional whitespace and at
least one digit (with an optional trailing letter); unmatched labels
return `(false, "")`; and on labels "item N[letter]" for N between 1 and
20 and letters a-c the synthesized key is `item_N[letter]`, which parses
back to the same (number, letter) pair, making the synthesis injective
on that family. -/
theorem C5_explicit_classifier :
    (∀ s : String,
        (is_target_item_explicit s).1 = true ↔
          ∃ pre ws ds suf : List Char,
            (normalize_anchor_text s).data
              = pre ++ ('i' :: 't' :: 'e' :: 'm' :: []) ++ ws ++ ds ++ suf
            ∧ (∀ c ∈ ws, pyIsSpaceB c = true)
            ∧ ds ≠ [] ∧ (∀ c ∈ ds, Char.isDigit c = true))
    ∧ (∀ s : String, (is_target_item_explicit s).1 = false →
        is_target_item_explicit s = (false, ""))
    ∧ (∀ n, n ∈ List.range 21 → 1 ≤ n → ∀ ls, ls ∈ ["", "a", "b", "c"] →
        is_target_item_explicit ("item " ++ toString n ++ ls)
            = (true, "item_" ++ toString n ++ ls)
          ∧ get_item_sort_key ("item_" ++ toString n ++ ls) = (n, ls)) := by
  refine ⟨?_, ?_, by decide⟩
  · intro s
    rw [explicit_matched_iff]
    constructor
    · intro h
      obtain ⟨r, hr⟩ := Option.isSome_iff_exists.mp h
      obtain ⟨pre, rest, heq, hm⟩ := searchItemAfter_decomp _ r hr
      obtain ⟨ds, ls⟩ := r
      obtain ⟨ws, suf, hshape, hws, hne, hds⟩ := itemMatchAt_decomp rest ds ls hm
      refine ⟨pre, ws, ds, suf, ?_, hws, hne, hds⟩
      rw [heq, hshape]
      simp [List.append_assoc]
    · rintro ⟨pre, ws, ds, suf, heq, hws, hne, hds⟩
      have hmatch := itemMatchAt_of_shape ws ds suf hws hne hds
      have := searchItemAfter_of_match pre _ hmatch
      have heq' : (normalize_anchor_text s).data
          = pre ++ ('i' :: 't' :: 'e' :: 'm' :: (ws ++ ds ++ suf)) := by
        rw [heq]
        simp [List.append_assoc]
      rw [heq']
      exact this
  · intro s h
    unfold is_target_item_explicit at h ⊢
    dsimp only at h ⊢
    cases hm : searchItemAfter (normalize_anchor_text s).data with
    | none => rfl
    | some r =>
      obtain ⟨ds, ls⟩ := r
      rw [hm] at h
      simp at h

/-- Claim C5 witness: a label whose number (13) is outside the known
universe still classifies explicitly, and the key round-trips. -/
theorem C5_explicit_classifier_witness :
    is_target_item_explicit ("item " ++ toString 13 ++ "b")
        = (true, "item_" ++ toString 13 ++ "b")
    ∧ get_item_sort_key ("item_" ++ toString 13 ++ "b") = (13, "b") :=
  C5_explicit_classifier.2.2 13 (by decide) (by decide) "b" (by decide)

/-- Claim C9: not-found conditions never raise — when no node carries
the boundary identifier under any id/name strategy (even
case-insensitively), the Content Extractor returns the empty string, and
when no anchor key strictly exceeds the target the Boundary Resolver
returns none.  Both embeddings are total functions, so no exception is
modelled at all. -/
theorem C9_not_found_returns_empty :
    (∀ (doc : Doc) (target_id : String) (next_target_id : Option String),
        (∀ e ∈ doc,
          (e.2.idAttr.all (fun v => lowerStr v != lowerStr target_id)) = true ∧
          (e.2.nameAttr.all (fun v => lowerStr v != lowerStr target_id)) = true) →
        find_section_content_advanced doc target_id next_target_id = "")
    ∧ (∀ (all_sections : List (String × String)) (cur : String),
        (∀ x ∈ all_sections,
          keyLtB (get_item_sort_key cur) (get_item_sort_key x.1) = false) →
        find_next_available_section all_sections cur = none) := by
  constructor
  · intro doc tid nid h
    have hid : ∀ q ∈ doc, (q.2.idAttr == some tid) = false := by
      intro q hq
      cases hv : q.2.idAttr with
      | none => rfl
      | some v =>
        have hne := (h q hq).1
        rw [hv] at hne
        simp only [Option.all_some, bne_iff_ne, ne_eq] at hne
        simp only [beq_eq_false_iff_ne, ne_eq, Option.some.injEq]
        intro hveq
        exact hne (by rw [hveq])
    have hidci : ∀ q ∈ doc,
        (q.2.idAttr.isSome && (lowerStr (q.2.idAttr.getD "") == lowerStr tid)) = false := by
      intro q hq
      cases hv : q.2.idAttr with
      | none => rfl
      | some v =>
        have hne := (h q hq).1
        rw [hv] at hne
        simp only [Option.all_some, bne_iff_ne, ne_eq] at hne
        simp [hne]
    have hname : ∀ q ∈ doc, (q.2.nameAttr == some tid) = false := by
      intro q hq
      cases hv : q.2.nameAttr with
      | none => rfl
      | some v =>
        have hne := (h q hq).2
        rw [hv] at hne
        simp only [Option.all_some, bne_iff_ne, ne_eq] at hne
        simp only [beq_eq_false_iff_ne, ne_eq, Option.some.injEq]
        intro hveq
        exact hne (by rw [hveq])
    have hnameci : ∀ q ∈ doc,
        (q.2.nameAttr.isSome && (lowerStr (q.2.nameAttr.getD "") == lowerStr tid)) = false := by
      intro q hq
      cases hv : q.2.nameAttr with
      | none => rfl
      | some v =>
        have hne := (h q hq).2
        rw [hv] at hne
        simp only [Option.all_some, bne_iff_ne, ne_eq] at hne
        simp [hne]
    have hres : resolveTargetEl doc tid = none := by
      unfold resolveTargetEl findNode
      have f1 : doc.find? (fun q => q.2.idAttr == some tid) = none :=
        List.find?_eq_none.mpr (fun q hq => by simp [hid q hq])
      have f2 : doc.find? (fun q => q.2.idAttr.isSome
          && (lowerStr (q.2.idAttr.getD "") == lowerStr tid)) = none :=
        List.find?_eq_none.mpr (fun q hq => by simp [hidci q hq])
      have f3 : doc.find? (fun q => q.2.tag == "a" && (q.2.nameAttr == some tid)) = none :=
        List.find?_eq_none.mpr (fun q hq => by simp [hname q hq])
      have f4 : doc.find? (fun q => q.2.tag == "a" && q.2.nameAttr.isSome
          && (lowerStr (q.2.nameAttr.getD "") == lowerStr tid)) = none :=
        List.find?_eq_none.mpr (fun q hq => by simp [Bool.and_assoc, hnameci q hq])
      have f5 : doc.find? (fun q => q.2.nameAttr == some tid) = none :=
        List.find?_eq_none.mpr (fun q hq => by simp [hname q hq])
      have f6 : doc.find? (fun q => q.2.nameAttr.isSome
          && (lowerStr (q.2.nameAttr.getD "") == lowerStr tid)) = none :=
        List.find?_eq_none.mpr (fun q hq => by simp [hnameci q hq])
      simp [f1, f2, f3, f4, f5, f6, Option.orElse]
    unfold find_section_content_advanced
    rw [hres]
  · intro secs cur hall
    unfold find_next_available_section
    dsimp only
    have hnil : secs.filterMap (fun x =>
        if keyLtB (get_item_sort_key cur) (get_item_sort_key x.1) = true then
          some (x.1, x.2, get_item_sort_key x.1)
        else none) = [] := by
      rw [List.filterMap_eq_nil]
      intro x hx
      rw [if_neg]
      simp [hall x hx]
    rw [hnil]
    rfl

/-- Claim C9 witness: a one-node document carrying only an unrelated id
yields the empty string for an unknown boundary identifier, and a
catalog with no later key resolves to none. -/
theorem C9_not_found_returns_empty_witness :
    find_section_content_advanced
        [([0], ⟨"div", some "intro", none, "hello world"⟩)] "item7" none = ""
    ∧ find_next_available_section [("item_2", "b")] "item_7" = none :=
  ⟨C9_not_found_returns_empty.1
      [([0], ⟨"div", some "intro", none, "hello world"⟩)] "item7" none (by decide),
   C9_not_found_returns_empty.2 [("item_2", "b")] "item_7" (by decide)⟩

/-- Claim C8 (code bug): on the flattened text "item 1a. risk factors"
the first accepted match for `item_1a` in pattern-list order is pattern
1's match at offset 0 — its context window matches a header shape — so
the recorded start offset should be 0; but `if start_pos:` treats an
accepted match at document offset 0 as no match, the loop continues,
and pattern 2's match at offset 9 is recorded instead.  The end-offset
half behaves as specified: the single recorded section ends at the text
length, 21. -/
theorem C8_zero_offset_bug :
    firstAcceptedStart "item 1a. risk factors".data pat_item_1a_1 = some 0
    ∧ find_section_boundaries "item 1a. risk factors".data = [("item_1a", (9, 21))]
    ∧ ("item 1a. risk factors".data).length = 21 :=
  ⟨rfl, rfl, rfl⟩

end TenK
